import Mathlib

/-!
Verification of the filter-query compiler and paginated query executor of
the clean-architecture-core repository (src/lib/database/DynamoExpressionBuilder.ts,
src/lib/database/DynamoValidator.ts).

The embedding translates the TypeScript source into executable Lean definitions:
JavaScript runtime values become the inductive type `JSValue` (numbers are
modelled as integers: every numeric value exercised by the source's pagination
validation is an integer), DynamoDB wire values become `DValue`, thrown
exceptions become `Except JsError`, and the record objects built by the
expression builder become structures over association lists that preserve
insertion order (JavaScript object keys preserve insertion order for
non-numeric keys).
-/

namespace Dynamo

/-- A plain JavaScript value, as handled by the source: null, undefined,
booleans, numbers (modelled as integers), strings, arrays, and objects
(ordered key/value lists, matching JS insertion-ordered string keys). -/
inductive JSValue where
  | null
  | undef
  | bool (b : Bool)
  | num (n : Int)
  | str (s : String)
  | arr (xs : List JSValue)
  | obj (fields : List (String × JSValue))
  deriving Repr

/-- A DynamoDB AttributeValue: the store's tagged-union wire value. -/
inductive DValue where
  | S (s : String)
  | N (s : String)
  | BOOL (b : Bool)
  | NULL
  | L (xs : List DValue)
  | M (fields : List (String × DValue))
  deriving Repr

/-- A stored item: a map from attribute name to wire value. -/
abbrev DItem := List (String × DValue)

/-- Errors thrown by the modelled JavaScript code: `validation` is a thrown
`DynamoValidationError`, `typeError` a thrown built-in `TypeError`. -/
inductive JsError where
  | validation (msg : String)
  | typeError (msg : String)
  deriving Repr, DecidableEq

mutual

/-- JavaScript `String(value)` coercion (ToString). Arrays join their
elements with commas, null/undefined elements becoming empty strings;
objects print as "[object Object]". -/
def jsToString : JSValue → String
  | .null => "null"
  | .undef => "undefined"
  | .bool b => if b then "true" else "false"
  | .num n => toString n
  | .str s => s
  | .arr xs => jsArrJoin xs
  | .obj _ => "[object Object]"

def jsArrJoin : List JSValue → String
  | [] => ""
  | [x] => jsArrElem x
  | x :: y :: xs => jsArrElem x ++ "," ++ jsArrJoin (y :: xs)

def jsArrElem : JSValue → String
  | .null => ""
  | .undef => ""
  | .bool b => if b then "true" else "false"
  | .num n => toString n
  | .str s => s
  | .arr xs => jsArrJoin xs
  | .obj _ => "[object Object]"

end

/-- JSON string escaping (restricted to quotes and backslashes; control
characters do not occur in the inputs exercised by the claims). -/
def jsonEscape (s : String) : String :=
  s.data.foldl (fun acc c =>
    if c = '"' then acc ++ "\\\""
    else if c = '\\' then acc ++ "\\\\"
    else acc.push c) ""

mutual

/-- JavaScript `JSON.stringify`, used by validateValue's serialized-form
scan: undefined inside an array serializes as null, an undefined object
member is omitted. -/
def jsonStringify : JSValue → String
  | .null => "null"
  | .undef => "undefined"
  | .bool b => if b then "true" else "false"
  | .num n => toString n
  | .str s => "\"" ++ jsonEscape s ++ "\""
  | .arr xs => "[" ++ jsonArr xs ++ "]"
  | .obj fs => "\x7b" ++ jsonObj fs ++ "\x7d"

def jsonArr : List JSValue → String
  | [] => ""
  | [x] => jsonArrElem x
  | x :: y :: xs => jsonArrElem x ++ "," ++ jsonArr (y :: xs)

def jsonArrElem : JSValue → String
  | .undef => "null"
  | .null => "null"
  | .bool b => if b then "true" else "false"
  | .num n => toString n
  | .str s => "\"" ++ jsonEscape s ++ "\""
  | .arr xs => "[" ++ jsonArr xs ++ "]"
  | .obj fs => "\x7b" ++ jsonObj fs ++ "\x7d"

def jsonObj : List (String × JSValue) → String
  | [] => ""
  | [(k, v)] => (match v with
      | .undef => ""
      | .null => "\"" ++ jsonEscape k ++ "\":null"
      | .bool b => "\"" ++ jsonEscape k ++ "\":" ++ (if b then "true" else "false")
      | .num n => "\"" ++ jsonEscape k ++ "\":" ++ toString n
      | .str s => "\"" ++ jsonEscape k ++ "\":\"" ++ jsonEscape s ++ "\""
      | .arr ys => "\"" ++ jsonEscape k ++ "\":[" ++ jsonArr ys ++ "]"
      | .obj gs => "\"" ++ jsonEscape k ++ "\":\x7b" ++ jsonObj gs ++ "\x7d")
  | (k, v) :: y :: xs => (match v with
      | .undef => ""
      | .null => "\"" ++ jsonEscape k ++ "\":null,"
      | .bool b => "\"" ++ jsonEscape k ++ "\":" ++ (if b then "true," else "false,")
      | .num n => "\"" ++ jsonEscape k ++ "\":" ++ toString n ++ ","
      | .str s => "\"" ++ jsonEscape k ++ "\":\"" ++ jsonEscape s ++ "\","
      | .arr ys => "\"" ++ jsonEscape k ++ "\":[" ++ jsonArr ys ++ "],"
      | .obj gs => "\"" ++ jsonEscape k ++ "\":\x7b" ++ jsonObj gs ++ "\x7d,") ++ jsonObj (y :: xs)

end

/-- JavaScript `hay.includes(pat)`: substring containment. -/
def containsSub (hay pat : String) : Bool :=
  hay.data.tails.any (fun t => pat.data.isPrefixOf t)

/-- Lower-casing a string (JS `toLowerCase`, ASCII): each character mapped
through Char.toLower. -/
def strLower (x : String) : String := String.mk (x.data.map Char.toLower)

/-- Upper-casing a string (JS `toUpperCase`, ASCII). -/
def strUpper (x : String) : String := String.mk (x.data.map Char.toUpper)

/-- Splitting a character list at every character satisfying p (empty pieces
kept), the list-level semantics of JS `split` with a single-character or
character-class separator. -/
def splitByPred (p : Char → Bool) : List Char → List (List Char)
  | [] => [[]]
  | c :: cs =>
    let r := splitByPred p cs
    if p c then [] :: r
    else match r with
      | [] => [[c]]
      | h :: t => (c :: h) :: t

/-- JS `field.split('.')`. -/
def splitOnDot (x : String) : List String :=
  (splitByPred (fun c => c = '.') x.data).map String.mk

/-- Decimal value of a digit string (used to invert Nat.repr, and as the
numeric reading of the store's tagged number values). -/
def digitsVal (l : List Char) : Nat :=
  l.foldl (fun a c => 10 * a + (c.toNat - 48)) 0

/-- Numeric reading of a decimal string (optional leading minus). -/
def jsStringToInt (x : String) : Int :=
  match x.data with
  | '-' :: ds => -(digitsVal ds : Int)
  | ds => (digitsVal ds : Int)

/-- The UNSAFE_PATTERNS blacklist of DynamoValidator.ts. -/
def unsafePatterns : List String :=
  ["__proto__", "constructor", "prototype", "$", ";", "DROP", "DELETE", "INSERT", "UPDATE"]

/-- The inline dangerousPatterns list of validateValue in DynamoValidator.ts. -/
def dangerousPatterns : List String :=
  ["$where", "$regex", "$ne", "$gt", "$lt", "$gte", "$lte",
   "$in", "$nin", "$or", "$and", "$not", "$exists", "$type",
   "$mod", "$text", "$elemMatch", "$size", "$all", "$expr",
   "__proto__", "constructor", "prototype"]

/-- The identifier pattern of VALID_FIELD_REGEX: a sequence matching
letter (letters digits underscore)*, all ASCII. -/
def validIdent (part : String) : Bool :=
  match part.data with
  | [] => false
  | c :: cs => c.isAlpha && cs.all (fun d => d.isAlpha || d.isDigit || d = '_')

/-- The per-segment forEach loop of validateFieldName: segment length bound,
then the identifier pattern, in list order. -/
def checkFieldParts : List String → Except JsError Unit
  | [] => .ok ()
  | p :: ps =>
    if p.length > 255 then
      .error (.validation "Field part length exceeds maximum of 255")
    else if !(validIdent p) then
      .error (.validation ("Invalid characters in field name: " ++ p))
    else checkFieldParts ps

/-- validateFieldName of DynamoValidator.ts. -/
def validateFieldName (field : String) : Except JsError Unit :=
  if field = "" then
    .error (.validation "Field name cannot be empty")
  else if unsafePatterns.any (fun pat => containsSub (strLower field) (strLower pat)) then
    .error (.validation ("Field name contains unsafe pattern: " ++ field))
  else
    let parts := splitOnDot field
    if parts.length > 20 then
      .error (.validation "Field depth exceeds maximum of 20")
    else checkFieldParts parts

/-- The shared head of validateValue (after its null/undefined guard):
the stringified dangerous-pattern scan and the string length bound. -/
def valuePreChecks (v : JSValue) : Except JsError Unit := do
  let stringified := jsonStringify v
  if dangerousPatterns.any (fun pat => containsSub (strLower stringified) (strLower pat)) then
    .error (.validation "Potential NoSQL injection detected")
  else
    match v with
    | .str s =>
      if s.length > 400000 then
        .error (.validation "Value length exceeds maximum of 400000")
      else .ok ()
    | _ => .ok ()

mutual

/-- validateValue of DynamoValidator.ts. Before its explicit null/undefined
guard, the function calls
`Object.prototype.hasOwnProperty.call(value, ...)` in a debug log; for a
null or undefined receiver that built-in throws a TypeError
("Cannot convert undefined or null to object"), so the explicit guard that
would throw a DynamoValidationError is unreachable for those inputs. After
the guard, the stringified value is scanned for dangerous patterns, an
oversized string or an empty array is rejected, object properties are
checked against `dangerousPatterns` by exact equality
(`dangerousPatterns.includes(prop)`), and the check recurses into array
elements and object property values in order. -/
def validateValue : JSValue → Except JsError Unit
  | .null => .error (.typeError "Cannot convert undefined or null to object")
  | .undef => .error (.typeError "Cannot convert undefined or null to object")
  | .bool b => valuePreChecks (.bool b)
  | .num n => valuePreChecks (.num n)
  | .str s => valuePreChecks (.str s)
  | .arr xs => do
    valuePreChecks (.arr xs)
    if xs.isEmpty then .error (.validation "Empty arrays not supported")
    else validateValueList xs
  | .obj fs => do
    valuePreChecks (.obj fs)
    if fs.any (fun kv => dangerousPatterns.contains kv.1) then
      .error (.validation "Potential NoSQL injection detected")
    else validateValueObj fs

def validateValueList : List JSValue → Except JsError Unit
  | [] => .ok ()
  | x :: xs => do
    validateValue x
    validateValueList xs

def validateValueObj : List (String × JSValue) → Except JsError Unit
  | [] => .ok ()
  | kv :: xs => do
    validateValue kv.2
    validateValueObj xs

end

mutual

/-- Modelled from the spec: the ValueCodec (DynamoUtils.ts, not under src/;
only its callers are). Per section 4.4, `toDynamoDBValue` is the encoding
direction of the bidirectional mapping between plain structured values and
the store's tagged-union wire values. -/
def toDynamoDBValue : JSValue → DValue
  | .null => .NULL
  | .undef => .NULL
  | .bool b => .BOOL b
  | .num n => .N (toString n)
  | .str s => .S s
  | .arr xs => .L (toDynamoDBList xs)
  | .obj fs => .M (toDynamoDBObj fs)

def toDynamoDBList : List JSValue → List DValue
  | [] => []
  | x :: xs => toDynamoDBValue x :: toDynamoDBList xs

def toDynamoDBObj : List (String × JSValue) → List (String × DValue)
  | [] => []
  | kv :: xs => (kv.1, toDynamoDBValue kv.2) :: toDynamoDBObj xs

end

mutual

/-- Modelled from the spec: the decoding direction of the ValueCodec
(DynamoUtils.ts, not under src/), inverse of `toDynamoDBValue`: a tagged
number becomes a plain number, a tagged string a plain string, and so on. -/
def fromDynamoDBValue : DValue → JSValue
  | .NULL => .null
  | .BOOL b => .bool b
  | .N s => .num (jsStringToInt s)
  | .S s => .str s
  | .L xs => .arr (fromDynamoDBList xs)
  | .M fs => .obj (fromDynamoDBObj fs)

def fromDynamoDBList : List DValue → List JSValue
  | [] => []
  | x :: xs => fromDynamoDBValue x :: fromDynamoDBList xs

def fromDynamoDBObj : List (String × DValue) → List (String × JSValue)
  | [] => []
  | kv :: xs => (kv.1, fromDynamoDBValue kv.2) :: fromDynamoDBObj xs

end

/-- Modelled from the spec: `mapItemToType` of the ValueCodec (DynamoUtils.ts,
not under src/) recursively unwraps an entire retrieved item into a plain
structured value. -/
def mapDynamoDBItemToType (item : DItem) : JSValue :=
  .obj (item.map (fun kv => (kv.1, fromDynamoDBValue kv.2)))

/-- Lexicographic comparison of character lists by codepoint. -/
def lexCmp : List Char → List Char → Ordering
  | [], [] => .eq
  | [], _ :: _ => .lt
  | _ :: _, [] => .gt
  | a :: as, b :: bs => if a < b then .lt else if b < a then .gt else lexCmp as bs

def ordToInt : Ordering → Int
  | .lt => -1
  | .eq => 0
  | .gt => 1

/-- Modelled from the spec: `String.prototype.localeCompare`, the
locale-aware string ordering named in section 4.3, modelled as
codepoint-lexicographic comparison returning a negative, zero or positive
number. -/
def localeCompare (a b : String) : Int :=
  ordToInt (lexCmp a.data b.data)

/-- IFilterQuery: one abstract filter predicate. -/
structure IFilterQuery where
  field : String
  operator : String
  value : JSValue
  deriving Repr

/-- The DynamoDBFilterExpression record built by the expression builder.
Optional fields distinguish an absent (undefined) member from a present
empty map, matching the JavaScript truthiness checks downstream. -/
structure DynamoDBFilterExpression where
  KeyConditionExpression : Option String := none
  FilterExpression : Option String := none
  ExpressionAttributeNames : Option (List (String × String)) := none
  ExpressionAttributeValues : Option (List (String × DValue)) := none
  deriving Repr

/-- JavaScript object property assignment `obj[k] = v` on an
insertion-ordered object: an existing key keeps its position and gets the
new value, a fresh key is appended. -/
def assocSet {α : Type} (l : List (String × α)) (k : String) (v : α) : List (String × α) :=
  match l with
  | [] => [(k, v)]
  | (k', v') :: rest => if k' = k then (k, v) :: rest else (k', v') :: assocSet rest k v

/-- `expr.ExpressionAttributeNames![key] = part` (the maps are initialized
at every call site that writes them). -/
def setName (e : DynamoDBFilterExpression) (k v : String) : DynamoDBFilterExpression :=
  { e with ExpressionAttributeNames := some (assocSet (e.ExpressionAttributeNames.getD []) k v) }

/-- `expr.ExpressionAttributeValues![key] = value`. -/
def setValue (e : DynamoDBFilterExpression) (k : String) (v : DValue) : DynamoDBFilterExpression :=
  { e with ExpressionAttributeValues := some (assocSet (e.ExpressionAttributeValues.getD []) k v) }

/-- The operatorMap of DynamoDBExpressionBuilder: abstract operator to
native comparison token; `undefined` (none) outside the table. -/
def operatorMap (op : String) : Option String :=
  if op = "<" then some "<"
  else if op = ">" then some ">"
  else if op = "<=" then some "<="
  else if op = ">=" then some ">="
  else if op = "=" then some "="
  else if op = "!=" then some "<>"
  else if op = "in" then some "IN"
  else if op = "not in" then some "NOT IN"
  else if op = "like" then some "contains"
  else if op = "not like" then some "NOT contains"
  else none

/-- extractPartitionKeyFilter: findIndex of the first predicate whose field
equals the configured partition-key name with equality operator, spliced
out of the copy of the list; expressed recursively (the first qualifying
element is removed, everything else keeps its relative order). -/
def extractPartitionKeyFilter (pkName : String) :
    List IFilterQuery → Option IFilterQuery × List IFilterQuery
  | [] => (none, [])
  | f :: fs =>
    if f.field = pkName ∧ f.operator = "=" then (some f, fs)
    else
      let r := extractPartitionKeyFilter pkName fs
      (r.1, f :: r.2)

/-- addPartitionKeyExpression: promote the extracted predicate to the key
condition with the fixed placeholders #pk and :pkVal. -/
def addPartitionKeyExpression (e : DynamoDBFilterExpression) (pkFilter : IFilterQuery) :
    DynamoDBFilterExpression :=
  let e := { e with KeyConditionExpression := some "#pk = :pkVal" }
  let e := setName e "#pk" pkFilter.field
  setValue e ":pkVal" (toDynamoDBValue pkFilter.value)

/-- The name placeholder template `#key{index}_{idx}` of buildSubExpression. -/
def nameKey (index idx : Nat) : String :=
  "#key" ++ Nat.repr index ++ "_" ++ Nat.repr idx

/-- The value placeholder template `:val{index}` of buildBasicExpression. -/
def valKey (index : Nat) : String :=
  ":val" ++ Nat.repr index

/-- The value placeholder template `:val{index}_{valIndex}` of buildInExpression. -/
def valKeyIdx (index valIndex : Nat) : String :=
  ":val" ++ Nat.repr index ++ "_" ++ Nat.repr valIndex

/-- The value placeholder template `:val{index}_{termIndex}_{c}` of
buildLikeExpression, where c is the case tag l, u or o. -/
def valKeyCase (index termIndex : Nat) (c : String) : String :=
  ":val" ++ Nat.repr index ++ "_" ++ Nat.repr termIndex ++ "_" ++ c

/-- JS `Array.prototype.join(sep)`: pieces joined with the separator. -/
def joinSep (sep : String) : List String → String
  | [] => ""
  | [x] => x
  | x :: y :: xs => x ++ sep ++ joinSep sep (y :: xs)

/-- The searchTerms of buildLikeExpression: the value coerced to string,
lower-cased, split on whitespace, empty pieces dropped (JS
`split(/\s+/).filter(term => term.length > 0)`). -/
def likeSearchTerms (value : JSValue) : List String :=
  ((splitByPred (fun c => c.isWhitespace) (strLower (jsToString value)).data).map String.mk).filter
    (fun t => t.length > 0)

/-- The `searchTerms.map((term, termIndex) => ...)` loop of
buildLikeExpression: three value placeholders per term (lower, upper,
original case), the three substring-containment checks OR-ed, the clause
negated for `not like`. -/
def buildLikeTerms (path : String) (index : Nat) (isNot : Bool) :
    DynamoDBFilterExpression → List String → Nat → DynamoDBFilterExpression × List String
  | e, [], _ => (e, [])
  | e, term :: rest, termIndex =>
    let valKeyLower := valKeyCase index termIndex "l"
    let valKeyUpper := valKeyCase index termIndex "u"
    let valKeyOriginal := valKeyCase index termIndex "o"
    let e := setValue e valKeyLower (toDynamoDBValue (.str (strLower term)))
    let e := setValue e valKeyUpper (toDynamoDBValue (.str (strUpper term)))
    let e := setValue e valKeyOriginal (toDynamoDBValue (.str term))
    let containsExpr := "contains(" ++ path ++ ", " ++ valKeyLower ++ ") OR contains(" ++ path
        ++ ", " ++ valKeyUpper ++ ") OR contains(" ++ path ++ ", " ++ valKeyOriginal ++ ")"
    let clause := if isNot then "NOT (" ++ containsExpr ++ ")" else containsExpr
    let r := buildLikeTerms path index isNot e rest (termIndex + 1)
    (r.1, clause :: r.2)

/-- buildLikeExpression of DynamoDBExpressionBuilder. -/
def buildLikeExpression (e : DynamoDBFilterExpression) (path : String) (value : JSValue)
    (index : Nat) (isNot : Bool) : DynamoDBFilterExpression × String :=
  let searchTerms := likeSearchTerms value
  if searchTerms.isEmpty then
    (e, if isNot then "attribute_exists(" ++ path ++ ")"
        else "attribute_not_exists(" ++ path ++ ")")
  else
    let r := buildLikeTerms path index isNot e searchTerms 0
    (r.1, if isNot then joinSep " AND " r.2
          else "(" ++ joinSep " AND " r.2 ++ ")")

/-- The value list buildInExpression iterates (scalar coerced to a
one-element array). -/
def inValues : JSValue → List JSValue
  | .arr xs => xs
  | v => [v]

/-- The `values.map((val, valIndex) => ...)` loop of buildInExpression. -/
def buildInTerms (path : String) (index : Nat) :
    DynamoDBFilterExpression → List JSValue → Nat → DynamoDBFilterExpression × List String
  | e, [], _ => (e, [])
  | e, val :: rest, valIndex =>
    let key := valKeyIdx index valIndex
    let e := setValue e key (toDynamoDBValue val)
    let r := buildInTerms path index e rest (valIndex + 1)
    (r.1, (path ++ " = " ++ key) :: r.2)

/-- buildInExpression of DynamoDBExpressionBuilder: a scalar value is
coerced to a one-element array, one equality check per element, OR-ed,
negated for `not in`. -/
def buildInExpression (e : DynamoDBFilterExpression) (path : String) (value : JSValue)
    (index : Nat) (isNot : Bool) : DynamoDBFilterExpression × String :=
  let r := buildInTerms path index e (inValues value) 0
  let combined := "(" ++ joinSep " OR " r.2 ++ ")"
  (r.1, if isNot then "NOT " ++ combined else combined)

/-- buildBasicExpression of DynamoDBExpressionBuilder: the value placeholder
is written before the operator is looked up, and an operator outside the
map throws a DynamoValidationError. -/
def buildBasicExpression (e : DynamoDBFilterExpression) (path operator : String)
    (value : JSValue) (index : Nat) : Except JsError (DynamoDBFilterExpression × String) :=
  let key := valKey index
  let e := setValue e key (toDynamoDBValue value)
  match operatorMap operator with
  | none => .error (.validation ("Unsupported operator: " ++ operator))
  | some dynOp => .ok (e, path ++ " " ++ dynOp ++ " " ++ key)

/-- The `pathParts.forEach((part, idx) => ...)` loop of buildSubExpression:
one name placeholder #key{index}_{idx} per dotted segment. -/
def addPathNames (index : Nat) :
    DynamoDBFilterExpression → List String → Nat → DynamoDBFilterExpression
  | e, [], _ => e
  | e, part :: rest, idx =>
    addPathNames index (setName e (nameKey index idx) part) rest (idx + 1)

/-- The dot-joined placeholder access path of buildSubExpression. -/
def pathOf (index : Nat) (numParts : Nat) : String :=
  joinSep "." ((List.range numParts).map (fun idx => nameKey index idx))

/-- buildSubExpression of DynamoDBExpressionBuilder: name placeholders for
the dotted path, then dispatch on the operator. -/
def buildSubExpression (e : DynamoDBFilterExpression) (field operator : String)
    (value : JSValue) (index : Nat) : Except JsError (DynamoDBFilterExpression × String) :=
  let pathParts := splitOnDot field
  let e := addPathNames index e pathParts 0
  let path := pathOf index pathParts.length
  if operator = "like" then .ok (buildLikeExpression e path value index false)
  else if operator = "not like" then .ok (buildLikeExpression e path value index true)
  else if operator = "in" then .ok (buildInExpression e path value index false)
  else if operator = "not in" then .ok (buildInExpression e path value index true)
  else buildBasicExpression e path operator value index

/-- The `filters.map((filter, i) => buildSubExpression(...))` loop of
addFilterExpressions, threading the mutated expression record. -/
def buildSubList : DynamoDBFilterExpression → List IFilterQuery → Nat →
    Except JsError (DynamoDBFilterExpression × List String)
  | e, [], _ => .ok (e, [])
  | e, f :: fs, i => do
    let r ← buildSubExpression e f.field f.operator f.value i
    let rest ← buildSubList r.1 fs (i + 1)
    .ok (rest.1, r.2 :: rest.2)

/-- addFilterExpressions of DynamoDBExpressionBuilder: sub-expressions
joined with " AND ". -/
def addFilterExpressions (e : DynamoDBFilterExpression) (filters : List IFilterQuery) :
    Except JsError DynamoDBFilterExpression := do
  let r ← buildSubList e filters 0
  .ok { r.1 with FilterExpression := some (joinSep " AND " r.2) }

/-- The fail-fast validation loop at the head of buildFilterExpression. -/
def validateFilters : List IFilterQuery → Except JsError Unit
  | [] => .ok ()
  | f :: fs => do
    validateFieldName f.field
    validateValue f.value
    validateFilters fs

/-- buildFilterExpression of DynamoDBExpressionBuilder (pkName is the
instance's configured partition-key field name). -/
def buildFilterExpression (pkName : String) (filters : List IFilterQuery) :
    Except JsError DynamoDBFilterExpression :=
  if filters.isEmpty then .ok {}
  else do
    validateFilters filters
    let expr : DynamoDBFilterExpression :=
      { ExpressionAttributeNames := some [], ExpressionAttributeValues := some [] }
    let r := extractPartitionKeyFilter pkName filters
    let expr := match r.1 with
      | some pkF => addPartitionKeyExpression expr pkF
      | none => expr
    if r.2.isEmpty then .ok expr
    else addFilterExpressions expr r.2

/-- IPaginationQuery (numbers modelled as integers; absent members none). -/
structure IPaginationQuery where
  page : Option Int := none
  limit : Option Int := none
  offset : Option Int := none
  sortBy : Option String := none
  sortDirection : Option String := none
  deriving Repr

/-- IGenericFilterQuery, after the destructuring defaults
`{ pagination = {}, filters = [] }` of prepareQueryParameters. -/
structure IGenericFilterQuery where
  filters : List IFilterQuery := []
  pagination : IPaginationQuery := {}
  deriving Repr

/-- validatePagination of DynamoValidator.ts checks that page, size, limit
and offset coerce to integers via `Number.isInteger(Number(x))`; numbers
are modelled as integers, so each check is true here. -/
def numberIsIntegerInt (_n : Int) : Bool := true

def validatePagination (p : IPaginationQuery) : Except JsError Unit :=
  let page := p.page.getD 1
  let offset := p.offset.getD 0
  if !(numberIsIntegerInt page) then .error (.validation "Page must be an integer")
  else if (match p.limit with
    | some l => !(numberIsIntegerInt l)
    | none => false) then .error (.validation "Limit must be an integer")
  else if !(numberIsIntegerInt offset) then .error (.validation "Offset must be an integer")
  else .ok ()

/-- calculatePaginationValues (both service variants carry a character-for-
character identical copy): page and limit floored (the identity on
integers) and clamped, offset recomputed from page and limit when it is not
a number at least zero. Returns (limit, offset). -/
def calculatePaginationValues (pagination : IPaginationQuery) : Int × Int :=
  let page := max 1 (pagination.page.getD 1)
  let limit := max 0 (pagination.limit.getD 100)
  let offset := match pagination.offset with
    | some o => if o < 0 then (page - 1) * limit else o
    | none => (page - 1) * limit
  (limit, offset)

/-- The native request record (QueryCommandInput / ScanCommandInput). -/
structure QueryCommandInput where
  TableName : String
  KeyConditionExpression : Option String := none
  FilterExpression : Option String := none
  ExpressionAttributeNames : Option (List (String × String)) := none
  ExpressionAttributeValues : Option (List (String × DValue)) := none
  ScanIndexForward : Option Bool := none
  deriving Repr

/-- JavaScript truthiness of a possibly-undefined string: undefined and the
empty string are falsy. -/
def jsTruthyStr : Option String → Bool
  | none => false
  | some s => s ≠ ""

/-- JavaScript object spread `{...a, ...b}` on insertion-ordered string-keyed
objects: keys of a in order (values overridden by b where shared), then the
keys of b not in a. -/
def spreadMerge {α : Type} (a b : List (String × α)) : List (String × α) :=
  a.map (fun kv => (kv.1, (((b.find? (fun kv2 => kv2.1 = kv.1)).map (fun kv2 => kv2.2)).getD kv.2)))
    ++ b.filter (fun kv2 => !(a.any (fun kv => kv.1 = kv2.1)))

/-- The shared body of buildQueryParams (both variants carry an identical
copy): copy the key condition, attach a #sortKey alias and the ScanIndex
direction only on the Query path when sortBy is truthy, then copy filter
expression, merge attribute names, copy attribute values. -/
def buildQueryParams (tableName : String) (expr : DynamoDBFilterExpression)
    (pagination : Option IPaginationQuery) : Except JsError QueryCommandInput := do
  let params : QueryCommandInput := { TableName := tableName }
  let params ← (match expr.KeyConditionExpression with
    | some kc =>
      if kc ≠ "" then do
        let params := { params with KeyConditionExpression := some kc }
        match pagination with
        | some pag =>
          match pag.sortBy with
          | some sortBy =>
            if sortBy ≠ "" then do
              validateFieldName sortBy
              let withSort := assocSet (params.ExpressionAttributeNames.getD []) "#sortKey" sortBy
              let params := { params with ExpressionAttributeNames := some withSort }
              .ok { params with ScanIndexForward := some (pag.sortDirection != some "desc") }
            else .ok params
          | none => .ok params
        | none => .ok params
      else .ok params
    | none => .ok params)
  let params := match expr.FilterExpression with
    | some fe => if fe ≠ "" then { params with FilterExpression := some fe } else params
    | none => params
  let params := match expr.ExpressionAttributeNames with
    | some ns =>
      let merged := spreadMerge (params.ExpressionAttributeNames.getD []) ns
      { params with ExpressionAttributeNames := some merged }
    | none => params
  let params := match expr.ExpressionAttributeValues with
    | some vs => { params with ExpressionAttributeValues := some vs }
    | none => params
  .ok params

/-- A DynamoDB client: the response (its Items member) to a native request.
Whether a Query or a Scan command is issued depends only on the presence of
KeyConditionExpression in the request itself. -/
abbrev DynamoClient := QueryCommandInput → List DItem

/-- The sort value a comparand contributes in the client-side sort:
`a[sortKey] ? fromDynamoDBValue(a[sortKey]) : ""` (a present AttributeValue
object is always truthy; a missing attribute is compared as ""). -/
def sortValOf (sortKey : String) (item : DItem) : JSValue :=
  match item.find? (fun kv => kv.1 = sortKey) with
  | some kv => fromDynamoDBValue kv.2
  | none => .str ""

/-- The comparator of the client-side sort in the sorting executor: string
pairs via localeCompare, number pairs via subtraction, anything else via
String() coercion and localeCompare; desc swaps the comparands. -/
def jsSortComparator (sortKey : String) (scanForward : Bool) (a b : DItem) : Int :=
  let aVal := sortValOf sortKey a
  let bVal := sortValOf sortKey b
  match aVal, bVal with
  | .str sa, .str sb => if scanForward then localeCompare sa sb else localeCompare sb sa
  | .num na, .num nb => if scanForward then na - nb else nb - na
  | av, bv =>
    let sa := jsToString av
    let sb := jsToString bv
    if scanForward then localeCompare sa sb else localeCompare sb sa

/-- Stable insertion into a list: x goes before the first y with le x y. -/
def orderedInsert {α : Type} (le : α → α → Bool) (x : α) : List α → List α
  | [] => [x]
  | y :: ys => if le x y then x :: y :: ys else y :: orderedInsert le x ys

/-- `[...items].sort(cmp)`: a stable comparison sort, modelled as stable
insertion sort (modern JS engines implement Array.prototype.sort stably;
for a consistent comparator any stable sort produces this order). -/
def insertionSort {α : Type} (le : α → α → Bool) : List α → List α
  | [] => []
  | x :: xs => orderedInsert le x (insertionSort le xs)

/-- Pagination slicing (both variants carry an identical copy):
`items.slice(offset, offset + limit)` mapped through the codec; empty when
limit is zero or offset reaches past the result. -/
def processResults (items : List DItem) (limit offset : Int) : List JSValue :=
  if limit = 0 then []
  else if offset ≥ (items.length : Int) then []
  else ((items.drop offset.toNat).take limit.toNat).map mapDynamoDBItemToType

namespace V1

/-- prepareQueryParameters of the sorting service variant (the copy of
DynamoDBService that passes pagination into buildQueryParams and sorts
client-side): validate pagination, normalize, short-circuit on limit zero
with a request carrying only the table name, otherwise compile the filters. -/
def prepareQueryParameters (tableName pkName : String) (query : IGenericFilterQuery) :
    Except JsError (QueryCommandInput × Int × Int × IPaginationQuery) := do
  validatePagination query.pagination
  let r := calculatePaginationValues query.pagination
  if r.1 = 0 then
    .ok ({ TableName := tableName }, 0, 0, query.pagination)
  else do
    let expr ← buildFilterExpression pkName query.filters
    let params ← buildQueryParams tableName expr (some query.pagination)
    .ok (params, r.1, r.2, query.pagination)

/-- executeQuery of the sorting variant: send the request (Query when a key
condition is present, Scan otherwise — either way the response's Items),
then, when sortBy is truthy, re-sort the raw item list client-side with the
comparator, desc reversing the comparison. -/
def executeQuery (params : QueryCommandInput) (client : DynamoClient)
    (pagination : IPaginationQuery) : List DItem :=
  let items := client params
  match pagination.sortBy with
  | some sortKey =>
    if sortKey ≠ "" then
      let scanForward := pagination.sortDirection != some "desc"
      insertionSort (fun a b => jsSortComparator sortKey scanForward a b ≤ 0) items
    else items
  | none => items

/-- fetchWithFiltersAndPagination of the sorting variant. handleError only
logs and rethrows, so it is the identity on the propagated error. -/
def fetchWithFiltersAndPagination (tableName pkName : String) (query : IGenericFilterQuery)
    (client : DynamoClient) : Except JsError (List JSValue × Nat) := do
  let r ← prepareQueryParameters tableName pkName query
  let items := executeQuery r.1 client r.2.2.2
  let total := items.length
  .ok (processResults items r.2.1 r.2.2.1, total)

end V1

namespace V2

/-- prepareQueryParameters of the non-sorting service variant: identical to
the sorting variant except that buildQueryParams is called without the
pagination argument, so no sort directive is ever attached. -/
def prepareQueryParameters (tableName pkName : String) (query : IGenericFilterQuery) :
    Except JsError (QueryCommandInput × Int × Int) := do
  validatePagination query.pagination
  let r := calculatePaginationValues query.pagination
  if r.1 = 0 then
    .ok ({ TableName := tableName }, 0, 0)
  else do
    let expr ← buildFilterExpression pkName query.filters
    let params ← buildQueryParams tableName expr none
    .ok (params, r.1, r.2)

/-- executeQuery of the non-sorting variant: send the request, return the
response's Items unchanged. -/
def executeQuery (params : QueryCommandInput) (client : DynamoClient) : List DItem :=
  client params

/-- fetchWithFiltersAndPagination of the non-sorting variant. -/
def fetchWithFiltersAndPagination (tableName pkName : String) (query : IGenericFilterQuery)
    (client : DynamoClient) : Except JsError (List JSValue × Nat) := do
  let r ← prepareQueryParameters tableName pkName query
  let items := executeQuery r.1 client
  let total := items.length
  .ok (processResults items r.2.1 r.2.2, total)

end V2

/-! Helper definitions used by the theorems below. -/

/-- Lookup in an insertion-ordered object (first matching key). -/
def lookupKey {α : Type} (l : List (String × α)) (k : String) : Option α :=
  match l.find? (fun kv => kv.1 = k) with
  | some kv => some kv.2
  | none => none

/-- The keys of an insertion-ordered object. -/
def keysOf {α : Type} (l : List (String × α)) : List String :=
  l.map (fun kv => kv.1)

/-- Characters that may continue a placeholder token in a native
expression: letters, digits, underscore. -/
def isTokenChar (c : Char) : Bool := c.isAlphanum || c = '_'

/-- The placeholder tokens of a native expression string: maximal runs
starting with # or : and continuing with token characters. -/
def tokens : List Char → List String
  | [] => []
  | c :: cs =>
    if c = '#' ∨ c = ':' then
      String.mk (c :: cs.takeWhile isTokenChar) :: tokens (cs.dropWhile isTokenChar)
    else tokens cs
termination_by l => l.length
decreasing_by
  all_goals simp only [List.length_cons]
  · have h : (cs.dropWhile isTokenChar).length ≤ cs.length := by
      induction cs with
      | nil => simp [List.dropWhile]
      | cons x xs ih =>
        simp only [List.dropWhile]
        by_cases hx : isTokenChar x
        · simp only [hx]; exact Nat.le_succ_of_le ih
        · simp [hx]
    exact Nat.lt_succ_of_le h
  · exact Nat.lt_succ_self _

/-- Placeholder tokens of a possibly-absent expression member. -/
def tokensOf : Option String → List String
  | none => []
  | some s => tokens s.data

/-- The supported abstract operator set of the spec's section 4.2. -/
def supportedOperators : List String :=
  ["<", ">", "<=", ">=", "=", "!=", "in", "not in", "like", "not like"]

/-- Spec-side normalized page: max(1, floor(page or 1)). -/
def specPageNorm (p : IPaginationQuery) : Int := max 1 (p.page.getD 1)

/-- Spec-side normalized limit: max(0, floor(limit or 100)). -/
def specLimitNorm (p : IPaginationQuery) : Int := max 0 (p.limit.getD 100)

/-- Spec-side normalized offset: the given offset when it is a number at
least zero, otherwise (page - 1) * limit. -/
def specOffsetNorm (p : IPaginationQuery) : Int :=
  match p.offset with
  | some o => if o ≥ 0 then o else (specPageNorm p - 1) * specLimitNorm p
  | none => (specPageNorm p - 1) * specLimitNorm p

/-- Spec-side C4: the three value placeholders one like-term emits, holding
its lower-case, upper-case and original-case forms. -/
def likeTermEntries (index termIndex : Nat) (term : String) : List (String × DValue) :=
  [(valKeyCase index termIndex "l", .S (strLower term)),
   (valKeyCase index termIndex "u", .S (strUpper term)),
   (valKeyCase index termIndex "o", .S term)]

/-- Spec-side C4: the value placeholders of all like-terms in order. -/
def likeSpecEntries (index : Nat) (terms : List String) : List (String × DValue) :=
  (terms.enum.map (fun p => likeTermEntries index p.1 p.2)).flatten

/-- Spec-side C4: one term's three substring-containment checks, OR-ed. -/
def likeOrClause (path : String) (index termIndex : Nat) : String :=
  "contains(" ++ path ++ ", " ++ valKeyCase index termIndex "l" ++ ") OR contains(" ++ path
    ++ ", " ++ valKeyCase index termIndex "u" ++ ") OR contains(" ++ path ++ ", "
    ++ valKeyCase index termIndex "o" ++ ")"

/-- Spec-side C4: the whole like / not-like expression: per-term clauses
AND-ed for like; for not like each per-term OR-clause individually negated
and the negated clauses AND-ed. -/
def likeSpecExpr (path : String) (index : Nat) (terms : List String) (isNot : Bool) : String :=
  if isNot then
    joinSep " AND " (terms.enum.map (fun p => "NOT (" ++ likeOrClause path index p.1 ++ ")"))
  else
    "(" ++ joinSep " AND " (terms.enum.map (fun p => likeOrClause path index p.1)) ++ ")"

/-- The name map entries one remaining filter at a given index contributes:
one per dotted segment. -/
def filterNameEntries (index : Nat) (f : IFilterQuery) : List (String × String) :=
  (splitOnDot f.field).enum.map (fun p => (nameKey index p.1, p.2))

/-- The value map entries one remaining filter at a given index contributes,
by operator family. -/
def filterValueEntries (index : Nat) (f : IFilterQuery) : List (String × DValue) :=
  if f.operator = "like" ∨ f.operator = "not like" then
    likeSpecEntries index (likeSearchTerms f.value)
  else if f.operator = "in" ∨ f.operator = "not in" then
    (inValues f.value).enum.map (fun p => (valKeyIdx index p.1, toDynamoDBValue p.2))
  else
    [(valKey index, toDynamoDBValue f.value)]

/-- Name entries of all remaining filters from a start index. -/
def remNameEntries : List IFilterQuery → Nat → List (String × String)
  | [], _ => []
  | f :: fs, i => filterNameEntries i f ++ remNameEntries fs (i + 1)

/-- Value entries of all remaining filters from a start index. -/
def remValueEntries : List IFilterQuery → Nat → List (String × DValue)
  | [], _ => []
  | f :: fs, i => filterValueEntries i f ++ remValueEntries fs (i + 1)

/-- The #pk name entry when a partition-key filter was extracted. -/
def pkNamePart : Option IFilterQuery → List (String × String)
  | some q => [("#pk", q.field)]
  | none => []

/-- The :pkVal value entry when a partition-key filter was extracted. -/
def pkValuePart : Option IFilterQuery → List (String × DValue)
  | some q => [(":pkVal", toDynamoDBValue q.value)]
  | none => []


/-! Infrastructure: decimal representation of Nat. -/

def c1Item1 : DItem := [("id", DValue.S "1"), ("age", DValue.N "5")]

def c1Item2 : DItem := [("id", DValue.S "2")]

def c1Matches (it : DItem) : Bool :=
  match lookupKey it "age" with
  | some (.N s) => s = "5"
  | _ => false

def c1Client : DynamoClient := fun params =>
  match params.FilterExpression with
  | none => [c1Item1, c1Item2]
  | some _ => [c1Item1]

def c1Query : IGenericFilterQuery :=
  { filters := [⟨"age", "=", .num 5⟩], pagination := { limit := some 0 } }

/-- Spec-side C8: the sorted-ascending relation on items by a numeric sort
attribute. -/
def numSortLe (key : String) (a b : DItem) : Prop :=
  ∀ na nb : Int, sortValOf key a = .num na → sortValOf key b = .num nb → na ≤ nb

/-- Spec-side C8: the sorted-descending relation. -/
def numSortGe (key : String) (a b : DItem) : Prop :=
  ∀ na nb : Int, sortValOf key a = .num na → sortValOf key b = .num nb → nb ≤ na

def c8Items : List DItem :=
  [[("age", DValue.N "30")], [("age", DValue.N "10")], [("age", DValue.N "20")]]

def c8Asc : List DItem :=
  [[("age", DValue.N "10")], [("age", DValue.N "20")], [("age", DValue.N "30")]]

def c8Desc : List DItem :=
  [[("age", DValue.N "30")], [("age", DValue.N "20")], [("age", DValue.N "10")]]

/-- The expression record with its value map replaced. -/
def withVals (e : DynamoDBFilterExpression) (vs : List (String × DValue)) :
    DynamoDBFilterExpression :=
  { e with ExpressionAttributeValues := some vs }

/-- The expression record with its name map replaced. -/
def withNames (e : DynamoDBFilterExpression) (ns : List (String × String)) :
    DynamoDBFilterExpression :=
  { e with ExpressionAttributeNames := some ns }

/-- A character-list continuation that cannot extend a placeholder token. -/
def cleanRest (rest : List Char) : Prop :=
  ∀ c, rest.head? = some c → isTokenChar c = false

/-- A placeholder key: the sigil followed by token characters only. -/
def keyShaped (sig : Char) (k : String) : Prop :=
  ∃ run, k.data = sig :: run ∧ ∀ c ∈ run, isTokenChar c = true

/-- The value-placeholder shapes a filter at a given index can create. -/
def isIdxValKey (i : Nat) (k : String) : Prop :=
  k = valKey i ∨ (∃ j, k = valKeyIdx i j) ∨
    (∃ t c, c ∈ (["l", "u", "o"] : List String) ∧ k = valKeyCase i t c)

/-- C7 witness inputs: a partition-key filter plus a basic, an in and a
like predicate. -/
def c7Filters : List IFilterQuery :=
  [⟨"id", "=", .str "u1"⟩, ⟨"age", ">", .num 21⟩,
   ⟨"status", "in", .arr [.str "a", .str "b"]⟩, ⟨"name", "like", .str "Jo"⟩]

/-- C7 witness result: the expression record built for the witness inputs. -/
def c7Expr : DynamoDBFilterExpression :=
  match buildFilterExpression "id" c7Filters with
  | .ok e => e
  | .error _ => {}


lemma toDigitsCore_acc (f : Nat) : ∀ (n : Nat) (ds : List Char),
    Nat.toDigitsCore 10 f n ds = Nat.toDigitsCore 10 f n [] ++ ds := by
  induction f with
  | zero => intro n ds; simp [Nat.toDigitsCore]
  | succ f ih =>
    intro n ds
    simp only [Nat.toDigitsCore]
    by_cases h : n / 10 = 0
    · simp [h]
    · simp only [h, if_false]
      rw [ih (n / 10) (Nat.digitChar (n % 10) :: ds), ih (n / 10) [Nat.digitChar (n % 10)]]
      simp

lemma digitChar_isDigit (m : Nat) (h : m < 10) : (Nat.digitChar m).isDigit = true := by
  interval_cases m <;> decide

lemma digitChar_toNat (m : Nat) (h : m < 10) : (Nat.digitChar m).toNat - 48 = m := by
  interval_cases m <;> decide

lemma toDigitsCore_digits (f : Nat) : ∀ (n : Nat) (ds : List Char),
    (∀ c ∈ ds, c.isDigit = true) → ∀ c ∈ Nat.toDigitsCore 10 f n ds, c.isDigit = true := by
  induction f with
  | zero => intro n ds hds; simpa [Nat.toDigitsCore] using hds
  | succ f ih =>
    intro n ds hds
    have hd : (Nat.digitChar (n % 10)).isDigit = true :=
      digitChar_isDigit _ (Nat.mod_lt _ (by norm_num))
    simp only [Nat.toDigitsCore]
    by_cases h : n / 10 = 0
    · simp only [h, if_true]
      intro c hc
      rcases List.mem_cons.mp hc with rfl | hc
      · exact hd
      · exact hds c hc
    · simp only [h, if_false]
      apply ih
      intro c hc
      rcases List.mem_cons.mp hc with rfl | hc
      · exact hd
      · exact hds c hc

lemma digitsVal_append_singleton (l : List Char) (c : Char) :
    digitsVal (l ++ [c]) = 10 * digitsVal l + (c.toNat - 48) := by
  simp [digitsVal, List.foldl_append]

lemma toDigitsCore_val (f : Nat) : ∀ (n : Nat), n < f →
    digitsVal (Nat.toDigitsCore 10 f n []) = n := by
  induction f with
  | zero => omega
  | succ f ih =>
    intro n hn
    simp only [Nat.toDigitsCore]
    by_cases h : n / 10 = 0
    · simp only [h, if_true]
      have h10 : n < 10 := by omega
      simp [digitsVal, digitChar_toNat (n % 10) (by omega)]
      omega
    · simp only [h, if_false]
      rw [toDigitsCore_acc, digitsVal_append_singleton,
        ih (n / 10) (by omega), digitChar_toNat (n % 10) (by omega)]
      omega

lemma repr_data (n : Nat) : (Nat.repr n).data = Nat.toDigitsCore 10 (n + 1) n [] := rfl

lemma repr_digits (n : Nat) : ∀ c ∈ (Nat.repr n).data, c.isDigit = true := by
  rw [repr_data]
  exact toDigitsCore_digits (n + 1) n [] (by simp)

lemma repr_val (n : Nat) : digitsVal (Nat.repr n).data = n := by
  rw [repr_data]
  exact toDigitsCore_val (n + 1) n (Nat.lt_succ_self n)

lemma repr_data_inj {m n : Nat} (h : (Nat.repr m).data = (Nat.repr n).data) : m = n := by
  have := repr_val m
  rw [h, repr_val] at this
  omega

lemma digit_block_split : ∀ (a b s t : List Char),
    (∀ c ∈ a, c.isDigit = true) → (∀ c ∈ b, c.isDigit = true) →
    (∀ c, s.head? = some c → c.isDigit = false) → (∀ c, t.head? = some c → c.isDigit = false) →
    a ++ s = b ++ t → a = b ∧ s = t := by
  intro a
  induction a with
  | nil =>
    intro b s t _ hb hs _ h
    cases b with
    | nil => simpa using h
    | cons c bs =>
      simp only [List.nil_append, List.cons_append] at h
      subst h
      have h1 : c.isDigit = true := hb c (List.mem_cons_self ..)
      have h2 : c.isDigit = false := hs c rfl
      simp [h1] at h2
  | cons c as ih =>
    intro b s t ha hb hs ht h
    cases b with
    | nil =>
      simp only [List.cons_append, List.nil_append] at h
      subst h
      have h1 : c.isDigit = true := ha c (List.mem_cons_self ..)
      have h2 : c.isDigit = false := ht c rfl
      simp [h1] at h2
    | cons c' bs =>
      simp only [List.cons_append, List.cons.injEq] at h
      obtain ⟨rfl, h⟩ := h
      obtain ⟨h1, h2⟩ := ih bs s t (fun d hd => ha d (List.mem_cons_of_mem _ hd))
        (fun d hd => hb d (List.mem_cons_of_mem _ hd)) hs ht h
      exact ⟨by rw [h1], h2⟩

lemma repr_split {i i' : Nat} {s t : List Char}
    (hs : ∀ c, s.head? = some c → c.isDigit = false)
    (ht : ∀ c, t.head? = some c → c.isDigit = false)
    (h : (Nat.repr i).data ++ s = (Nat.repr i').data ++ t) : i = i' ∧ s = t := by
  obtain ⟨h1, h2⟩ := digit_block_split _ _ _ _ (repr_digits i) (repr_digits i') hs ht h
  exact ⟨repr_data_inj h1, h2⟩

lemma underscore_head {u : List Char} : ∀ c, ('_' :: u).head? = some c → c.isDigit = false := by
  intro c hc
  simp only [List.head?] at hc
  rw [← Option.some.injEq ..] at hc ⊢
  simp at hc
  subst hc
  decide

lemma nameKey_inj {i j i' j' : Nat} (h : nameKey i j = nameKey i' j') : i = i' ∧ j = j' := by
  have hd := congrArg String.data h
  simp only [nameKey, String.data_append, List.append_assoc, List.cons_append,
    List.nil_append, List.cons.injEq, true_and] at hd
  obtain ⟨h1, h2⟩ := repr_split underscore_head underscore_head hd
  exact ⟨h1, repr_data_inj (by injection h2)⟩

lemma valKey_inj {i i' : Nat} (h : valKey i = valKey i') : i = i' := by
  have hd := congrArg String.data h
  simp only [valKey, String.data_append, List.append_assoc, List.cons_append,
    List.nil_append, List.cons.injEq, true_and] at hd
  exact repr_data_inj hd

lemma valKeyIdx_inj {i j i' j' : Nat} (h : valKeyIdx i j = valKeyIdx i' j') : i = i' ∧ j = j' := by
  have hd := congrArg String.data h
  simp only [valKeyIdx, String.data_append, List.append_assoc, List.cons_append,
    List.nil_append, List.cons.injEq, true_and] at hd
  obtain ⟨h1, h2⟩ := repr_split underscore_head underscore_head hd
  exact ⟨h1, repr_data_inj (by injection h2)⟩

lemma valKeyCase_inj {i t i' t' : Nat} {c c' : String}
    (hc : ∀ d, c.data.head? = some d → d.isDigit = false)
    (hc' : ∀ d, c'.data.head? = some d → d.isDigit = false)
    (h : valKeyCase i t c = valKeyCase i' t' c') : i = i' ∧ t = t' ∧ c = c' := by
  have hd := congrArg String.data h
  simp only [valKeyCase, String.data_append, List.append_assoc, List.cons_append,
    List.nil_append, List.cons.injEq, true_and] at hd
  obtain ⟨h1, h2⟩ := repr_split underscore_head underscore_head hd
  have h2' : (Nat.repr t).data ++ '_' :: c.data = (Nat.repr t').data ++ '_' :: c'.data := by
    injection h2
  obtain ⟨h3, h4⟩ := repr_split underscore_head underscore_head h2'
  have h5 : c.data = c'.data := by injection h4
  exact ⟨h1, h3, by cases c; cases c'; exact congrArg String.mk (by simpa using h5)⟩

lemma valKey_ne_valKeyIdx (i i' j : Nat) : valKey i ≠ valKeyIdx i' j := by
  intro h
  have hd := congrArg String.data h
  simp only [valKey, valKeyIdx, String.data_append, List.append_assoc, List.cons_append,
    List.nil_append, List.cons.injEq, true_and] at hd
  rw [← List.append_nil (Nat.repr i).data] at hd
  obtain ⟨-, h2⟩ := repr_split (by intro c hc; simp at hc) underscore_head hd
  exact (List.cons_ne_nil _ _).symm h2

lemma valKey_ne_valKeyCase (i i' t : Nat) (c : String) : valKey i ≠ valKeyCase i' t c := by
  intro h
  have hd := congrArg String.data h
  simp only [valKey, valKeyCase, String.data_append, List.append_assoc, List.cons_append,
    List.nil_append, List.cons.injEq, true_and] at hd
  rw [← List.append_nil (Nat.repr i).data] at hd
  obtain ⟨-, h2⟩ := repr_split (by intro c hc; simp at hc) underscore_head hd
  exact (List.cons_ne_nil _ _).symm h2

lemma valKeyIdx_ne_valKeyCase (i j i' t : Nat) (c : String) : valKeyIdx i j ≠ valKeyCase i' t c := by
  intro h
  have hd := congrArg String.data h
  simp only [valKeyIdx, valKeyCase, String.data_append, List.append_assoc, List.cons_append,
    List.nil_append, List.cons.injEq, true_and] at hd
  obtain ⟨-, h2⟩ := repr_split underscore_head underscore_head hd
  have h2' : (Nat.repr j).data = (Nat.repr t).data ++ '_' :: c.data := by injection h2
  rw [← List.append_nil (Nat.repr j).data] at h2'
  obtain ⟨-, h3⟩ := repr_split (by intro d hd'; simp at hd') underscore_head h2'
  exact (List.cons_ne_nil _ _).symm h3

lemma pk_ne_nameKey (i j : Nat) : "#pk" ≠ nameKey i j := by
  intro h
  have hd := congrArg String.data h
  simp only [nameKey, String.data_append, List.append_assoc, List.cons_append,
    List.nil_append, List.cons.injEq] at hd
  exact absurd hd.2.1 (by decide)

lemma pkVal_ne_valKey (i : Nat) : ":pkVal" ≠ valKey i := by
  intro h
  have hd := congrArg String.data h
  simp only [valKey, String.data_append, List.append_assoc, List.cons_append,
    List.nil_append, List.cons.injEq] at hd
  exact absurd hd.2.1 (by decide)

lemma pkVal_ne_valKeyIdx (i j : Nat) : ":pkVal" ≠ valKeyIdx i j := by
  intro h
  have hd := congrArg String.data h
  simp only [valKeyIdx, String.data_append, List.append_assoc, List.cons_append,
    List.nil_append, List.cons.injEq] at hd
  exact absurd hd.2.1 (by decide)

lemma pkVal_ne_valKeyCase (i t : Nat) (c : String) : ":pkVal" ≠ valKeyCase i t c := by
  intro h
  have hd := congrArg String.data h
  simp only [valKeyCase, String.data_append, List.append_assoc, List.cons_append,
    List.nil_append, List.cons.injEq] at hd
  exact absurd hd.2.1 (by decide)

/-! Association-list machinery. -/

lemma assocSet_fresh {α : Type} (l : List (String × α)) (k : String) (v : α)
    (h : k ∉ keysOf l) : assocSet l k v = l ++ [(k, v)] := by
  induction l with
  | nil => rfl
  | cons kv rest ih =>
    simp only [keysOf, List.map_cons, List.mem_cons, not_or] at h
    obtain ⟨h1, h2⟩ := h
    cases kv with
    | mk k' v' =>
      simp only [assocSet]
      rw [if_neg (by simpa using fun hk => h1 (by simp [hk])), List.cons_append,
        ih (by simpa [keysOf] using h2)]

lemma keysOf_append {α : Type} (l1 l2 : List (String × α)) :
    keysOf (l1 ++ l2) = keysOf l1 ++ keysOf l2 := by
  simp [keysOf]

lemma lookupKey_append {α : Type} (l1 l2 : List (String × α)) (k : String) :
    lookupKey (l1 ++ l2) k =
      match lookupKey l1 k with
      | some v => some v
      | none => lookupKey l2 k := by
  induction l1 with
  | nil => simp [lookupKey]
  | cons kv rest ih =>
    simp only [lookupKey, List.find?, List.cons_append] at *
    by_cases h : kv.1 = k
    · simp [h]
    · simp only [h, decide_eq_false h] at *
      simpa using ih

lemma lookupKey_cons_self {α : Type} (k : String) (v : α) (l : List (String × α)) :
    lookupKey ((k, v) :: l) k = some v := by
  simp [lookupKey, List.find?]

lemma lookupKey_not_mem {α : Type} (l : List (String × α)) (k : String)
    (h : k ∉ keysOf l) : lookupKey l k = none := by
  induction l with
  | nil => rfl
  | cons kv rest ih =>
    simp only [keysOf, List.map_cons, List.mem_cons, not_or] at h
    simp only [lookupKey, List.find?]
    rw [decide_eq_false (by exact fun hk => h.1 hk.symm)]
    exact ih (by simpa [keysOf] using h.2)

lemma mem_keysOf_iff {α : Type} (l : List (String × α)) (k : String) :
    k ∈ keysOf l ↔ ∃ v, (k, v) ∈ l := by
  simp only [keysOf, List.mem_map]
  constructor
  · rintro ⟨⟨k', v⟩, hm, rfl⟩
    exact ⟨v, hm⟩
  · rintro ⟨v, hm⟩
    exact ⟨(k, v), hm, rfl⟩

lemma lookupKey_assocSet_self {α : Type} (l : List (String × α)) (k : String) (v : α) :
    lookupKey (assocSet l k v) k = some v := by
  induction l with
  | nil => simp [assocSet, lookupKey, List.find?]
  | cons kv rest ih =>
    cases kv with
    | mk k' v' =>
      simp only [assocSet]
      by_cases h : k' = k
      · rw [if_pos h]
        exact lookupKey_cons_self ..
      · rw [if_neg h]
        simp only [lookupKey, List.find?] at *
        rw [decide_eq_false h]
        exact ih

/-- C2: for every filter list, extractPartitionKeyFilter removes exactly the
first predicate (in list order) whose field is the configured partition-key
name with equality operator, keeps all remaining predicates (later
qualifying ones included) in their original relative order, and the removed
predicate is promoted to the key condition with the placeholders #pk and
:pkVal; a list with no qualifying predicate is returned whole. -/
theorem c2_extract_partition_key (pkName : String) (pre post : List IFilterQuery)
    (q : IFilterQuery) (hq : q.field = pkName ∧ q.operator = "=")
    (hpre : ∀ f ∈ pre, ¬(f.field = pkName ∧ f.operator = "=")) :
    extractPartitionKeyFilter pkName (pre ++ q :: post) = (some q, pre ++ post) ∧
    (∀ l : List IFilterQuery, (∀ f ∈ l, ¬(f.field = pkName ∧ f.operator = "=")) →
      extractPartitionKeyFilter pkName l = (none, l)) ∧
    (∀ e : DynamoDBFilterExpression,
      (addPartitionKeyExpression e q).KeyConditionExpression = some "#pk = :pkVal" ∧
      lookupKey ((addPartitionKeyExpression e q).ExpressionAttributeNames.getD []) "#pk"
        = some q.field ∧
      lookupKey ((addPartitionKeyExpression e q).ExpressionAttributeValues.getD []) ":pkVal"
        = some (toDynamoDBValue q.value)) := by
  refine ⟨?_, ?_, ?_⟩
  · induction pre with
    | nil =>
      simp only [List.nil_append, extractPartitionKeyFilter]
      rw [if_pos hq]
    | cons f fs ih =>
      simp only [List.cons_append, extractPartitionKeyFilter, List.append_eq]
      rw [if_neg (hpre f (List.mem_cons_self ..))]
      rw [ih (fun g hg => hpre g (List.mem_cons_of_mem _ hg))]
  · intro l hl
    induction l with
    | nil => rfl
    | cons f fs ih =>
      simp only [extractPartitionKeyFilter]
      rw [if_neg (hl f (List.mem_cons_self ..))]
      rw [ih (fun g hg => hl g (List.mem_cons_of_mem _ hg))]
  · intro e
    refine ⟨rfl, ?_, ?_⟩
    · simp only [addPartitionKeyExpression, setName, setValue, Option.getD_some]
      exact lookupKey_assocSet_self ..
    · simp only [addPartitionKeyExpression, setName, setValue, Option.getD_some]
      exact lookupKey_assocSet_self ..

/-- C2 witness. -/
theorem c2_extract_partition_key_witness :
    extractPartitionKeyFilter "id"
      [⟨"age", ">", .num 1⟩, ⟨"id", "=", .str "a"⟩, ⟨"id", "=", .str "b"⟩]
      = (some ⟨"id", "=", .str "a"⟩, [⟨"age", ">", .num 1⟩, ⟨"id", "=", .str "b"⟩]) := by
  have h := c2_extract_partition_key "id" [⟨"age", ">", .num 1⟩]
    [⟨"id", "=", .str "b"⟩] ⟨"id", "=", .str "a"⟩ (by constructor <;> rfl)
    (by intro f hf; simp only [List.mem_singleton] at hf; subst hf; simp)
  exact h.1

/-- C3: for every pagination spec that passes validation (with numbers
modelled as integers every spec does; floor is the identity on integers),
the normalized values are page = max(1, page or 1), limit = max(0, limit or
100), offset = offset when present and at least zero, otherwise
(page-1)*limit; with the three concrete examples of the claim. -/
theorem c3_pagination_normalization (p : IPaginationQuery)
    (_hv : validatePagination p = .ok ()) :
    calculatePaginationValues p = (specLimitNorm p, specOffsetNorm p) ∧
    calculatePaginationValues { page := some 2, limit := some 10 } = (10, 10) ∧
    calculatePaginationValues { limit := some (-5) } = (0, 0) ∧
    calculatePaginationValues { offset := some (-1), page := some 1, limit := some 10 }
      = (10, 0) := by
  refine ⟨?_, by rfl, by rfl, by rfl⟩
  simp only [calculatePaginationValues, specLimitNorm, specOffsetNorm, specPageNorm]
  cases hoff : p.offset with
  | none => rfl
  | some o =>
    dsimp only
    by_cases h : o < 0
    · rw [if_pos h, if_neg (by omega)]
    · rw [if_neg h, if_pos (by omega)]

/-- C3 witness. -/
theorem c3_pagination_normalization_witness :
    calculatePaginationValues { page := some 2, limit := some 10 } = (10, 10) :=
  (c3_pagination_normalization { page := some 2, limit := some 10 } rfl).2.1

lemma validatePagination_ok (p : IPaginationQuery) : validatePagination p = .ok () := by
  cases hl : p.limit <;> simp [validatePagination, numberIsIntegerInt, hl]

/-- C5: validateValue rejects null and undefined before any network call,
but the failure is a TypeError thrown by the debug
`Object.prototype.hasOwnProperty.call(value, ...)` line, not the
DynamoValidationError of the (unreachable) explicit guard; the pipeline
propagates it for every client, i.e. independently of the store. -/
theorem c5_null_value_rejected :
    validateValue .null = .error (.typeError "Cannot convert undefined or null to object") ∧
    validateValue .undef = .error (.typeError "Cannot convert undefined or null to object") ∧
    ∀ client : DynamoClient,
      V1.fetchWithFiltersAndPagination "t" "id" ⟨[⟨"age", "=", .null⟩], {}⟩ client
        = .error (.typeError "Cannot convert undefined or null to object") := by
  refine ⟨rfl, rfl, fun client => ?_⟩
  rfl


lemma except_bind_ok {α β : Type} (a : α) (f : α → Except JsError β) :
    (Except.ok a >>= f) = f a := rfl

lemma except_bind_error {α β : Type} (e : JsError) (f : α → Except JsError β) :
    ((Except.error e : Except JsError α) >>= f) = Except.error e := rfl

lemma orderedInsert_length {α : Type} (le : α → α → Bool) (x : α) (l : List α) :
    (orderedInsert le x l).length = l.length + 1 := by
  induction l with
  | nil => rfl
  | cons y ys ih =>
    simp only [orderedInsert]
    by_cases h : le x y
    · simp [h]
    · simp [h, ih]

lemma insertionSort_length {α : Type} (le : α → α → Bool) (l : List α) :
    (insertionSort le l).length = l.length := by
  induction l with
  | nil => rfl
  | cons x xs ih => simp [insertionSort, orderedInsert_length, ih]

lemma orderedInsert_perm {α : Type} (le : α → α → Bool) (x : α) (l : List α) :
    (orderedInsert le x l).Perm (x :: l) := by
  induction l with
  | nil => exact List.Perm.refl _
  | cons y ys ih =>
    simp only [orderedInsert]
    by_cases h : le x y
    · simp [h]
    · simp only [h, if_false]
      exact (ih.cons y).trans (List.Perm.swap x y ys)

lemma insertionSort_perm {α : Type} (le : α → α → Bool) (l : List α) :
    (insertionSort le l).Perm l := by
  induction l with
  | nil => exact List.Perm.refl _
  | cons x xs ih =>
    exact (orderedInsert_perm le x (insertionSort le xs)).trans (ih.cons x)

lemma mem_orderedInsert {α : Type} {le : α → α → Bool} {x a : α} {l : List α}
    (h : a ∈ orderedInsert le x l) : a = x ∨ a ∈ l :=
  List.mem_cons.mp ((orderedInsert_perm le x l).mem_iff.mp h)

lemma pairwise_orderedInsert {α : Type} (le : α → α → Bool) (P : α → Prop)
    (total : ∀ a b, P a → P b → le a b = true ∨ le b a = true)
    (trans : ∀ a b c, P a → P b → P c → le a b = true → le b c = true → le a c = true)
    (x : α) (hx : P x) :
    ∀ l : List α, (∀ a ∈ l, P a) → l.Pairwise (fun a b => le a b = true) →
      (orderedInsert le x l).Pairwise (fun a b => le a b = true) := by
  intro l
  induction l with
  | nil => intro _ _; simp [orderedInsert]
  | cons y ys ih =>
    intro hP hl
    have hPy : P y := hP y (List.mem_cons_self ..)
    have hPys : ∀ a ∈ ys, P a := fun a ha => hP a (List.mem_cons_of_mem _ ha)
    rw [List.pairwise_cons] at hl
    obtain ⟨hy, hys⟩ := hl
    simp only [orderedInsert]
    by_cases h : le x y
    · rw [if_pos h]
      refine List.Pairwise.cons ?_ (List.Pairwise.cons hy hys)
      intro b hb
      rcases List.mem_cons.mp hb with rfl | hb
      · exact h
      · exact trans x y b hx hPy (hPys b hb) h (hy b hb)
    · rw [if_neg h]
      have hyx : le y x = true := by
        rcases total x y hx hPy with h' | h'
        · exact absurd h' h
        · exact h'
      refine List.Pairwise.cons ?_ (ih hPys hys)
      intro b hb
      rcases mem_orderedInsert hb with rfl | hb
      · exact hyx
      · exact hy b hb

lemma pairwise_insertionSort {α : Type} (le : α → α → Bool) (P : α → Prop)
    (total : ∀ a b, P a → P b → le a b = true ∨ le b a = true)
    (trans : ∀ a b c, P a → P b → P c → le a b = true → le b c = true → le a c = true)
    (l : List α) (hP : ∀ a ∈ l, P a) :
    (insertionSort le l).Pairwise (fun a b => le a b = true) := by
  induction l with
  | nil => simp [insertionSort]
  | cons x xs ih =>
    have hPx : P x := hP x (List.mem_cons_self ..)
    have hPxs : ∀ a ∈ xs, P a := fun a ha => hP a (List.mem_cons_of_mem _ ha)
    exact pairwise_orderedInsert le P total trans x hPx (insertionSort le xs)
      (fun a ha => hPxs a ((insertionSort_perm le xs).mem_iff.mp ha)) (ih hPxs)

/-! C1: concrete store for the counterexample. A client consistent with the
store semantics: an unfiltered request returns the whole two-item table,
while the compiled filter age = 5 would match only the first item. -/






/-- C1 counterexample: with limit 0 and the filter age = 5 over a two-item
table of which exactly one item matches, the fetch returns total = 2 — the
unfiltered table count — not the filter-matched count 1, because the issued
request carries no filter expression. -/
theorem c1_counterexample :
    V1.fetchWithFiltersAndPagination "t" "id" c1Query c1Client = .ok ([], 2) ∧
    ([c1Item1, c1Item2].filter c1Matches).length = 1 ∧
    (2 : Nat) ≠ ([c1Item1, c1Item2].filter c1Matches).length := by
  refine ⟨rfl, rfl, by decide⟩

lemma processResults_limit_zero (items : List DItem) (off : Int) :
    processResults items 0 off = [] := by
  simp [processResults]

/-- C1 amended: for every query whose normalized limit is zero, the fetch
skips expression compilation (the result does not depend on the filters at
all), issues a request carrying only the table identifier, and returns
data = [] with total equal to the number of items the store returns for
that unfiltered request. -/
theorem c1_limit_zero (tn pk : String) (q : IGenericFilterQuery) (client : DynamoClient)
    (h : (calculatePaginationValues q.pagination).1 = 0) :
    V1.fetchWithFiltersAndPagination tn pk q client
      = .ok ([], (client { TableName := tn }).length) ∧
    ∀ filters' : List IFilterQuery,
      V1.fetchWithFiltersAndPagination tn pk { q with filters := filters' } client
        = V1.fetchWithFiltersAndPagination tn pk q client := by
  have hlen : (V1.executeQuery { TableName := tn } client q.pagination).length
      = (client { TableName := tn }).length := by
    simp only [V1.executeQuery]
    cases q.pagination.sortBy with
    | none => rfl
    | some k =>
      dsimp only
      by_cases hk : k ≠ ""
      · rw [if_pos hk]
        exact insertionSort_length ..
      · rw [if_neg hk]
  constructor
  · simp only [V1.fetchWithFiltersAndPagination, V1.prepareQueryParameters,
      validatePagination_ok, except_bind_ok]
    rw [if_pos h]
    simp only [except_bind_ok]
    rw [processResults_limit_zero, hlen]
  · intro filters'
    simp only [V1.fetchWithFiltersAndPagination, V1.prepareQueryParameters,
      validatePagination_ok, except_bind_ok]
    rw [if_pos h, if_pos h]

/-- C1 witness for the amended theorem. -/
theorem c1_limit_zero_witness :
    V1.fetchWithFiltersAndPagination "t" "id"
      { filters := [⟨"name", "like", .str "x"⟩], pagination := { limit := some 0 } }
      (fun _ => [[("a", DValue.S "v")]])
      = .ok ([], 1) := by
  have h := c1_limit_zero "t" "id"
    { filters := [⟨"name", "like", .str "x"⟩], pagination := { limit := some 0 } }
    (fun _ => [[("a", DValue.S "v")]]) rfl
  exact h.1

lemma buildQueryParams_no_sort (tn : String) (expr : DynamoDBFilterExpression)
    (pag : IPaginationQuery) (h : pag.sortBy = none) :
    buildQueryParams tn expr (some pag) = buildQueryParams tn expr none := by
  simp only [buildQueryParams]
  cases hk : expr.KeyConditionExpression with
  | none => rfl
  | some kc =>
    dsimp only
    rw [h]

lemma executeQuery_no_sort (params : QueryCommandInput) (client : DynamoClient)
    (pag : IPaginationQuery) (h : pag.sortBy = none) :
    V1.executeQuery params client pag = client params := by
  simp only [V1.executeQuery, h]

/-- C9: for every query with no sortBy set, the sorting and the non-sorting
service variants build identical native request parameters and return
identical results given the same store (the two variants differ only in the
client-side sort fallback). -/
theorem c9_variants_agree (tn pk : String) (q : IGenericFilterQuery) (client : DynamoClient)
    (h : q.pagination.sortBy = none) :
    (V1.prepareQueryParameters tn pk q).map (fun r => r.1)
      = (V2.prepareQueryParameters tn pk q).map (fun r => r.1) ∧
    V1.fetchWithFiltersAndPagination tn pk q client
      = V2.fetchWithFiltersAndPagination tn pk q client := by
  constructor
  · simp only [V1.prepareQueryParameters, V2.prepareQueryParameters,
      validatePagination_ok, except_bind_ok]
    by_cases h0 : (calculatePaginationValues q.pagination).1 = 0
    · rw [if_pos h0, if_pos h0]
      rfl
    · rw [if_neg h0, if_neg h0]
      cases hb : buildFilterExpression pk q.filters with
      | error e => simp only [except_bind_error]; rfl
      | ok expr =>
        simp only [except_bind_ok]
        rw [buildQueryParams_no_sort tn expr q.pagination h]
        cases hp : buildQueryParams tn expr none with
        | error e => simp only [except_bind_error]; rfl
        | ok params => simp only [except_bind_ok, Except.map]
  · simp only [V1.fetchWithFiltersAndPagination, V2.fetchWithFiltersAndPagination,
      V1.prepareQueryParameters, V2.prepareQueryParameters,
      validatePagination_ok, except_bind_ok]
    by_cases h0 : (calculatePaginationValues q.pagination).1 = 0
    · rw [if_pos h0, if_pos h0]
      simp only [except_bind_ok, V2.executeQuery,
        executeQuery_no_sort _ client q.pagination h]
    · rw [if_neg h0, if_neg h0]
      cases hb : buildFilterExpression pk q.filters with
      | error e => simp only [except_bind_error]
      | ok expr =>
        simp only [except_bind_ok]
        rw [buildQueryParams_no_sort tn expr q.pagination h]
        cases hp : buildQueryParams tn expr none with
        | error e => simp only [except_bind_error]
        | ok params =>
          simp only [except_bind_ok, V2.executeQuery,
            executeQuery_no_sort _ client q.pagination h]

/-- C9 witness. -/
theorem c9_variants_agree_witness :
    V1.fetchWithFiltersAndPagination "t" "id"
      { filters := [⟨"id", "=", .str "u1"⟩], pagination := {} }
      (fun _ => [[("id", DValue.S "u1")]])
      = V2.fetchWithFiltersAndPagination "t" "id"
        { filters := [⟨"id", "=", .str "u1"⟩], pagination := {} }
        (fun _ => [[("id", DValue.S "u1")]]) :=
  (c9_variants_agree "t" "id" { filters := [⟨"id", "=", .str "u1"⟩], pagination := {} }
    (fun _ => [[("id", DValue.S "u1")]]) rfl).2

/-! Lexicographic comparison machinery. -/

lemma executeQuery_sort (params : QueryCommandInput) (client : DynamoClient)
    (pag : IPaginationQuery) (k : String) (hs : pag.sortBy = some k) (hk : k ≠ "") :
    V1.executeQuery params client pag
      = insertionSort
          (fun a b => jsSortComparator k (pag.sortDirection != some "desc") a b ≤ 0)
          (client params) := by
  simp only [V1.executeQuery, hs]
  rw [if_pos hk]

/-- C8: with sortBy set, the executor re-sorts the retrieved items
client-side regardless of access pattern (for every request and client):
the result is a permutation of the response, for homogeneous numeric sort
values it is ordered by the numeric value — ascending by default, descending
for sortDirection desc — and on the concrete ages [30, 10, 20] it returns
[10, 20, 30] ascending and [30, 20, 10] descending. -/
theorem c8_client_side_sort (params : QueryCommandInput) (client : DynamoClient)
    (pagination : IPaginationQuery) (sortKey : String)
    (hs : pagination.sortBy = some sortKey) (hk : sortKey ≠ "") :
    (V1.executeQuery params client pagination).Perm (client params) ∧
    ((∀ it ∈ client params, ∃ n : Int, sortValOf sortKey it = .num n) →
      (pagination.sortDirection ≠ some "desc" →
        (V1.executeQuery params client pagination).Pairwise (numSortLe sortKey)) ∧
      (pagination.sortDirection = some "desc" →
        (V1.executeQuery params client pagination).Pairwise (numSortGe sortKey))) ∧
    V1.executeQuery { TableName := "t" } (fun _ => c8Items) { sortBy := some "age" } = c8Asc ∧
    V1.executeQuery { TableName := "t" } (fun _ => c8Items)
      { sortBy := some "age", sortDirection := some "desc" } = c8Desc := by
  rw [executeQuery_sort params client pagination sortKey hs hk]
  refine ⟨insertionSort_perm .., ?_, rfl, rfl⟩
  intro hnum
  constructor
  · intro hdir
    have hfwd : (pagination.sortDirection != some "desc") = true := by rwa [bne_iff_ne]
    rw [hfwd]
    have hpw := pairwise_insertionSort
      (fun a b => decide (jsSortComparator sortKey true a b ≤ 0))
      (fun it => ∃ n : Int, sortValOf sortKey it = .num n)
      (by
        rintro a b ⟨na, ha⟩ ⟨nb, hb⟩
        simp only [jsSortComparator, ha, hb]
        simp only [decide_eq_true_eq, if_true]
        rcases le_total na nb with hab | hab
        · exact Or.inl (by omega)
        · exact Or.inr (by omega))
      (by
        rintro a b c ⟨na, ha⟩ ⟨nb, hb⟩ ⟨nc, hc⟩
        simp only [jsSortComparator, ha, hb, hc]
        simp only [decide_eq_true_eq, if_true]
        intro hab hbc
        omega)
      (client params) hnum
    refine List.Pairwise.imp_of_mem ?_ hpw
    intro a b ha hb hle
    have hPa := hnum a ((insertionSort_perm _ (client params)).mem_iff.mp ha)
    have hPb := hnum b ((insertionSort_perm _ (client params)).mem_iff.mp hb)
    obtain ⟨na, hna⟩ := hPa
    obtain ⟨nb, hnb⟩ := hPb
    intro na' nb' hna' hnb'
    rw [hna] at hna'
    rw [hnb] at hnb'
    cases hna'
    cases hnb'
    simp only [jsSortComparator, hna, hnb, if_true, decide_eq_true_eq] at hle
    omega
  · intro hdir
    have hfwd : (pagination.sortDirection != some "desc") = false := by
      rw [hdir]
      rfl
    rw [hfwd]
    have hpw := pairwise_insertionSort
      (fun a b => decide (jsSortComparator sortKey false a b ≤ 0))
      (fun it => ∃ n : Int, sortValOf sortKey it = .num n)
      (by
        rintro a b ⟨na, ha⟩ ⟨nb, hb⟩
        simp only [jsSortComparator, ha, hb]
        simp only [decide_eq_true_eq, Bool.false_eq_true, if_false]
        rcases le_total na nb with hab | hab
        · exact Or.inr (by omega)
        · exact Or.inl (by omega))
      (by
        rintro a b c ⟨na, ha⟩ ⟨nb, hb⟩ ⟨nc, hc⟩
        simp only [jsSortComparator, ha, hb, hc]
        simp only [decide_eq_true_eq, Bool.false_eq_true, if_false]
        intro hab hbc
        omega)
      (client params) hnum
    refine List.Pairwise.imp_of_mem ?_ hpw
    intro a b ha hb hle
    obtain ⟨na, hna⟩ := hnum a ((insertionSort_perm _ (client params)).mem_iff.mp ha)
    obtain ⟨nb, hnb⟩ := hnum b ((insertionSort_perm _ (client params)).mem_iff.mp hb)
    intro na' nb' hna' hnb'
    rw [hna] at hna'
    rw [hnb] at hnb'
    cases hna'
    cases hnb'
    simp only [jsSortComparator, hna, hnb, Bool.false_eq_true, if_false,
      decide_eq_true_eq] at hle
    omega

/-- C8 witness. -/
theorem c8_client_side_sort_witness :
    V1.executeQuery { TableName := "t" } (fun _ => c8Items) { sortBy := some "age" } = c8Asc :=
  (c8_client_side_sort { TableName := "t" } (fun _ => c8Items) { sortBy := some "age" }
    "age" rfl (by decide)).2.2.1

lemma toDynamoDBValue_str (s : String) : toDynamoDBValue (.str s) = .S s := rfl


lemma valKeyCase_ne_of_case {i t i' t' : Nat} {c c' : String}
    (hc : c ∈ (["l", "u", "o"] : List String)) (hc' : c' ∈ (["l", "u", "o"] : List String))
    (hne : c ≠ c' ∨ t ≠ t') : valKeyCase i t c ≠ valKeyCase i' t' c' := by
  intro h
  have hhead : ∀ d : String, d ∈ (["l", "u", "o"] : List String) →
      ∀ x, d.data.head? = some x → x.isDigit = false := by
    intro d hd x hx
    simp only [List.mem_cons, List.not_mem_nil, or_false] at hd
    rcases hd with rfl | rfl | rfl <;> (simp only [List.head?] at hx) <;>
      (injection hx with hx; subst hx; decide)
  obtain ⟨h1, h2, h3⟩ := valKeyCase_inj (hhead c hc) (hhead c' hc') h
  rcases hne with hne | hne
  · exact hne h3
  · exact hne h2

lemma buildLikeTerms_spec (path : String) (i : Nat) (isNot : Bool) :
    ∀ (ts : List String) (t0 : Nat) (e : DynamoDBFilterExpression)
      (vals : List (String × DValue)),
      e.ExpressionAttributeValues = some vals →
      (∀ t c, t0 ≤ t → c ∈ (["l", "u", "o"] : List String) →
        valKeyCase i t c ∉ keysOf vals) →
      buildLikeTerms path i isNot e ts t0
        = (withVals e (vals ++ ((List.enumFrom t0 ts).map
              (fun p => likeTermEntries i p.1 p.2)).flatten),
           (List.enumFrom t0 ts).map (fun p =>
              if isNot then "NOT (" ++ likeOrClause path i p.1 ++ ")"
              else likeOrClause path i p.1)) := by
  intro ts
  induction ts with
  | nil =>
    intro t0 e vals hval _
    simp only [buildLikeTerms, List.enumFrom, List.map_nil, List.flatten_nil,
      List.append_nil, withVals]
    rw [← hval]
  | cons term rest ih =>
    intro t0 e vals hval hfresh
    have hLmem : ("l" : String) ∈ (["l", "u", "o"] : List String) := by decide
    have hUmem : ("u" : String) ∈ (["l", "u", "o"] : List String) := by decide
    have hOmem : ("o" : String) ∈ (["l", "u", "o"] : List String) := by decide
    have hfL : valKeyCase i t0 "l" ∉ keysOf vals := hfresh t0 "l" le_rfl hLmem
    have hfU : valKeyCase i t0 "u" ∉ keysOf vals := hfresh t0 "u" le_rfl hUmem
    have hfO : valKeyCase i t0 "o" ∉ keysOf vals := hfresh t0 "o" le_rfl hOmem
    have hUL : valKeyCase i t0 "u" ≠ valKeyCase i t0 "l" :=
      valKeyCase_ne_of_case hUmem hLmem (Or.inl (by decide))
    have hOL : valKeyCase i t0 "o" ≠ valKeyCase i t0 "l" :=
      valKeyCase_ne_of_case hOmem hLmem (Or.inl (by decide))
    have hOU : valKeyCase i t0 "o" ≠ valKeyCase i t0 "u" :=
      valKeyCase_ne_of_case hOmem hUmem (Or.inl (by decide))
    have e1val : (setValue e (valKeyCase i t0 "l")
        (toDynamoDBValue (.str (strLower term)))).ExpressionAttributeValues
        = some (vals ++ [(valKeyCase i t0 "l", DValue.S (strLower term))]) := by
      simp only [setValue, hval, Option.getD_some]
      rw [assocSet_fresh _ _ _ hfL]
      rfl
    have e2val : (setValue (setValue e (valKeyCase i t0 "l")
        (toDynamoDBValue (.str (strLower term)))) (valKeyCase i t0 "u")
        (toDynamoDBValue (.str (strUpper term)))).ExpressionAttributeValues
        = some (vals ++ [(valKeyCase i t0 "l", DValue.S (strLower term)),
            (valKeyCase i t0 "u", DValue.S (strUpper term))]) := by
      rw [setValue.eq_def]
      simp only [e1val, Option.getD_some]
      rw [assocSet_fresh]
      · simp [toDynamoDBValue_str]
      · rw [keysOf_append]
        simp only [List.mem_append, not_or]
        exact ⟨hfU, by simp [keysOf, hUL]⟩
    have e3val : (setValue (setValue (setValue e (valKeyCase i t0 "l")
        (toDynamoDBValue (.str (strLower term)))) (valKeyCase i t0 "u")
        (toDynamoDBValue (.str (strUpper term)))) (valKeyCase i t0 "o")
        (toDynamoDBValue (.str term))).ExpressionAttributeValues
        = some (vals ++ likeTermEntries i t0 term) := by
      rw [setValue.eq_def]
      simp only [e2val, Option.getD_some]
      rw [assocSet_fresh]
      · simp [likeTermEntries, toDynamoDBValue_str]
      · rw [keysOf_append]
        simp only [List.mem_append, not_or]
        exact ⟨hfO, by simp [keysOf, hOL, hOU]⟩
    have hfresh3 : ∀ t c, t0 + 1 ≤ t → c ∈ (["l", "u", "o"] : List String) →
        valKeyCase i t c ∉ keysOf (vals ++ likeTermEntries i t0 term) := by
      intro t c ht hc
      rw [keysOf_append]
      simp only [List.mem_append, not_or]
      refine ⟨hfresh t c (by omega) hc, ?_⟩
      simp only [likeTermEntries, keysOf, List.map_cons, List.map_nil,
        List.mem_cons, List.not_mem_nil, or_false, not_or]
      exact ⟨valKeyCase_ne_of_case hc hLmem (Or.inr (by omega)),
        valKeyCase_ne_of_case hc hUmem (Or.inr (by omega)),
        valKeyCase_ne_of_case hc hOmem (Or.inr (by omega))⟩
    simp only [buildLikeTerms]
    rw [ih (t0 + 1) _ (vals ++ likeTermEntries i t0 term) e3val hfresh3]
    simp only [List.enumFrom, List.map_cons, List.flatten_cons, List.append_assoc,
      likeTermEntries, likeOrClause, toDynamoDBValue_str, setValue, withVals]

/-- C4: for every like / not-like predicate, the value is coerced to
string, lower-cased and split on whitespace into non-empty terms
(likeSearchTerms); zero terms produce an attribute-existence check
(existence for not like, non-existence for like) and no value placeholders;
otherwise each term emits exactly three value placeholders holding its
lower-case, upper-case and original-case forms, OR-ed as three
substring-containment checks per term, the per-term clauses AND-ed for
like, and for not like each per-term OR-clause individually negated and the
negated clauses AND-ed. -/
theorem c4_like_expression (e : DynamoDBFilterExpression) (vals : List (String × DValue))
    (path : String) (value : JSValue) (i : Nat) (isNot : Bool)
    (hval : e.ExpressionAttributeValues = some vals)
    (hfresh : ∀ t c, c ∈ (["l", "u", "o"] : List String) →
      valKeyCase i t c ∉ keysOf vals) :
    (likeSearchTerms value = [] →
      buildLikeExpression e path value i isNot
        = (e, if isNot then "attribute_exists(" ++ path ++ ")"
              else "attribute_not_exists(" ++ path ++ ")")) ∧
    (likeSearchTerms value ≠ [] →
      buildLikeExpression e path value i isNot
        = (withVals e (vals ++ likeSpecEntries i (likeSearchTerms value)),
           likeSpecExpr path i (likeSearchTerms value) isNot)) := by
  constructor
  · intro h
    simp only [buildLikeExpression, h, List.isEmpty_nil, if_true]
  · intro h
    simp only [buildLikeExpression]
    rw [if_neg (by simpa using h)]
    rw [buildLikeTerms_spec path i isNot (likeSearchTerms value) 0 e vals hval
      (fun t c _ hc => hfresh t c hc)]
    simp only [likeSpecEntries, likeSpecExpr, List.enum_eq_enumFrom]
    cases isNot <;> simp

/-- C4 witness. -/
theorem c4_like_expression_witness :
    buildLikeExpression { ExpressionAttributeValues := some [] } "#key0_0"
      (.str "Hello World") 0 false
      = (withVals { ExpressionAttributeValues := some [] }
          ([] ++ likeSpecEntries 0 (likeSearchTerms (.str "Hello World"))),
         likeSpecExpr "#key0_0" 0 (likeSearchTerms (.str "Hello World")) false) := by
  have h := c4_like_expression { ExpressionAttributeValues := some [] } [] "#key0_0"
    (.str "Hello World") 0 false rfl (by intro t c _ hk; simp [keysOf] at hk)
  exact h.2 (by decide)

/-! C7: placeholder-token machinery. -/



lemma cleanRest_nil : cleanRest [] := by intro c hc; simp at hc

lemma cleanRest_cons {c : Char} {cs : List Char} (h : isTokenChar c = false) :
    cleanRest (c :: cs) := by
  intro d hd
  simp only [List.head?] at hd
  injection hd with hd
  subst hd
  exact h

lemma takeWhile_all_append (p : Char → Bool) (run rest : List Char)
    (h : ∀ c ∈ run, p c = true) :
    (run ++ rest).takeWhile p = run ++ rest.takeWhile p := by
  induction run with
  | nil => simp
  | cons c cs ih =>
    simp only [List.cons_append, List.takeWhile]
    rw [h c (List.mem_cons_self ..)]
    simp only [List.cons.injEq, true_and]
    exact ih (fun d hd => h d (List.mem_cons_of_mem _ hd))

lemma dropWhile_all_append (p : Char → Bool) (run rest : List Char)
    (h : ∀ c ∈ run, p c = true) :
    (run ++ rest).dropWhile p = rest.dropWhile p := by
  induction run with
  | nil => simp
  | cons c cs ih =>
    simp only [List.cons_append, List.dropWhile]
    rw [h c (List.mem_cons_self ..)]
    exact ih (fun d hd => h d (List.mem_cons_of_mem _ hd))

lemma takeWhile_clean {rest : List Char} (h : cleanRest rest) :
    rest.takeWhile isTokenChar = [] := by
  cases rest with
  | nil => rfl
  | cons c cs =>
    simp only [List.takeWhile]
    rw [h c rfl]

lemma dropWhile_clean {rest : List Char} (h : cleanRest rest) :
    rest.dropWhile isTokenChar = rest := by
  cases rest with
  | nil => rfl
  | cons c cs =>
    simp only [List.dropWhile]
    rw [h c rfl]

lemma tokens_cons_sigil (c : Char) (cs : List Char) (h : c = '#' ∨ c = ':') :
    tokens (c :: cs)
      = String.mk (c :: cs.takeWhile isTokenChar) :: tokens (cs.dropWhile isTokenChar) := by
  rw [tokens]
  rw [if_pos h]

lemma tokens_cons_plain (c : Char) (cs : List Char) (h : ¬(c = '#' ∨ c = ':')) :
    tokens (c :: cs) = tokens cs := by
  rw [tokens]
  rw [if_neg h]

lemma tokens_no_sigil (a : List Char) (b : List Char)
    (h : ∀ c ∈ a, ¬(c = '#' ∨ c = ':')) : tokens (a ++ b) = tokens b := by
  induction a with
  | nil => rfl
  | cons c cs ih =>
    rw [List.cons_append, tokens_cons_plain c _ (h c (List.mem_cons_self ..))]
    exact ih (fun d hd => h d (List.mem_cons_of_mem _ hd))

lemma tokens_key_prefix (k : String) (s : Char) (run rest : List Char)
    (hk : k.data = s :: run) (hs : s = '#' ∨ s = ':')
    (hrun : ∀ c ∈ run, isTokenChar c = true) (hrest : cleanRest rest) :
    tokens (k.data ++ rest) = k :: tokens rest := by
  rw [hk, List.cons_append, tokens_cons_sigil s _ hs,
    takeWhile_all_append _ _ _ hrun, dropWhile_all_append _ _ _ hrun,
    takeWhile_clean hrest, dropWhile_clean hrest, List.append_nil]
  rw [show String.mk (s :: run) = k from hk ▸ rfl]


lemma digit_tokenChar {c : Char} (h : c.isDigit = true) : isTokenChar c = true := by
  simp [isTokenChar, Char.isAlphanum, h]

lemma tokens_keyShaped {sig : Char} {k : String} (hsig : sig = '#' ∨ sig = ':')
    (h : keyShaped sig k) (rest : List Char) (hrest : cleanRest rest) :
    tokens (k.data ++ rest) = k :: tokens rest := by
  obtain ⟨run, hk, hrun⟩ := h
  exact tokens_key_prefix k sig run rest hk hsig hrun hrest

lemma nameKey_shaped (i j : Nat) : keyShaped '#' (nameKey i j) := by
  refine ⟨'k' :: 'e' :: 'y' :: ((Nat.repr i).data ++ '_' :: (Nat.repr j).data), ?_, ?_⟩
  · simp [nameKey, String.data_append]
  · intro c hc
    simp only [List.mem_cons, List.mem_append] at hc
    rcases hc with rfl | rfl | rfl | hc | hc
    · decide
    · decide
    · decide
    · exact digit_tokenChar (repr_digits i c hc)
    · rcases hc with rfl | hc
      · decide
      · exact digit_tokenChar (repr_digits j c hc)

lemma valKey_shaped (i : Nat) : keyShaped ':' (valKey i) := by
  refine ⟨'v' :: 'a' :: 'l' :: (Nat.repr i).data, ?_, ?_⟩
  · simp [valKey, String.data_append]
  · intro c hc
    rcases List.mem_cons.mp hc with rfl | hc
    · decide
    rcases List.mem_cons.mp hc with rfl | hc
    · decide
    rcases List.mem_cons.mp hc with rfl | hc
    · decide
    · exact digit_tokenChar (repr_digits i c hc)

lemma valKeyIdx_shaped (i j : Nat) : keyShaped ':' (valKeyIdx i j) := by
  refine ⟨'v' :: 'a' :: 'l' :: ((Nat.repr i).data ++ '_' :: (Nat.repr j).data), ?_, ?_⟩
  · simp [valKeyIdx, String.data_append]
  · intro c hc
    rcases List.mem_cons.mp hc with rfl | hc
    · decide
    rcases List.mem_cons.mp hc with rfl | hc
    · decide
    rcases List.mem_cons.mp hc with rfl | hc
    · decide
    rcases List.mem_append.mp hc with hc | hc
    · exact digit_tokenChar (repr_digits i c hc)
    · rcases List.mem_cons.mp hc with rfl | hc
      · decide
      · exact digit_tokenChar (repr_digits j c hc)

lemma valKeyCase_shaped (i t : Nat) (c : String)
    (hc : c ∈ (["l", "u", "o"] : List String)) : keyShaped ':' (valKeyCase i t c) := by
  refine ⟨'v' :: 'a' :: 'l' ::
    ((Nat.repr i).data ++ '_' :: ((Nat.repr t).data ++ '_' :: c.data)), ?_, ?_⟩
  · simp [valKeyCase, String.data_append]
  · intro d hd
    rcases List.mem_cons.mp hd with rfl | hd
    · decide
    rcases List.mem_cons.mp hd with rfl | hd
    · decide
    rcases List.mem_cons.mp hd with rfl | hd
    · decide
    rcases List.mem_append.mp hd with hd | hd
    · exact digit_tokenChar (repr_digits i d hd)
    rcases List.mem_cons.mp hd with rfl | hd
    · decide
    rcases List.mem_append.mp hd with hd | hd
    · exact digit_tokenChar (repr_digits t d hd)
    rcases List.mem_cons.mp hd with rfl | hd
    · decide
    · simp only [List.mem_cons, List.not_mem_nil, or_false] at hc
      rcases hc with rfl | rfl | rfl <;>
        (simp only [List.mem_cons, List.not_mem_nil, or_false] at hd) <;>
        (rcases hd with rfl | hd) <;> first | decide | cases hd

lemma pk_shaped : keyShaped '#' "#pk" := ⟨['p', 'k'], rfl, by decide⟩

lemma pkVal_shaped : keyShaped ':' ":pkVal" := ⟨['p', 'k', 'V', 'a', 'l'], rfl, by decide⟩

lemma cleanRest_append {a b : List Char} (ha : cleanRest a) (hne : a ≠ []) :
    cleanRest (a ++ b) := by
  cases a with
  | nil => exact absurd rfl hne
  | cons c cs => exact cleanRest_cons (ha c rfl)

lemma tokens_joinSep (sep : String) (hsep_nosig : ∀ c ∈ sep.data, ¬(c = '#' ∨ c = ':'))
    (hsep_head : cleanRest sep.data) (hsep_ne : sep.data ≠ []) :
    ∀ (ps : List (String × List String)),
      (∀ p ∈ ps, ∀ rest, cleanRest rest → tokens (p.1.data ++ rest) = p.2 ++ tokens rest) →
      ∀ rest, cleanRest rest →
        tokens ((joinSep sep (ps.map (fun p => p.1))).data ++ rest)
          = (ps.map (fun p => p.2)).flatten ++ tokens rest := by
  intro ps
  induction ps with
  | nil => intro _ rest _; rfl
  | cons p qs ih =>
    intro hp rest hrest
    cases qs with
    | nil =>
      simp only [List.map_cons, List.map_nil, joinSep, List.flatten_cons,
        List.flatten_nil, List.append_nil]
      exact hp p (List.mem_cons_self ..) rest hrest
    | cons q qs' =>
      simp only [List.map_cons, joinSep, List.flatten_cons]
      rw [String.data_append, String.data_append, List.append_assoc, List.append_assoc]
      rw [hp p (List.mem_cons_self ..) _
        (cleanRest_append hsep_head hsep_ne)]
      rw [tokens_no_sigil sep.data _ hsep_nosig]
      have ihq := ih (fun r hr => hp r (List.mem_cons_of_mem _ hr)) rest hrest
      simp only [List.map_cons, joinSep] at ihq
      rw [ihq]
      simp [List.append_assoc]

lemma flatten_map_singleton {α β : Type} (f : α → β) (l : List α) :
    ((l.map (fun x => [f x])).flatten) = l.map f := by
  induction l with
  | nil => rfl
  | cons x xs ih => simp [ih]

lemma dot_nosig : ∀ c ∈ ("." : String).data, ¬(c = '#' ∨ c = ':') := by decide

lemma dot_clean : cleanRest ("." : String).data := cleanRest_cons (by decide)

lemma and_sep_nosig : ∀ c ∈ (" AND " : String).data, ¬(c = '#' ∨ c = ':') := by decide

lemma and_sep_clean : cleanRest (" AND " : String).data := cleanRest_cons (by decide)

lemma or_sep_nosig : ∀ c ∈ (" OR " : String).data, ¬(c = '#' ∨ c = ':') := by decide

lemma or_sep_clean : cleanRest (" OR " : String).data := cleanRest_cons (by decide)

lemma tokens_pathOf (i n : Nat) (rest : List Char) (hrest : cleanRest rest) :
    tokens ((pathOf i n).data ++ rest)
      = (List.range n).map (nameKey i) ++ tokens rest := by
  have h := tokens_joinSep "." dot_nosig dot_clean (by decide)
    ((List.range n).map (fun j => (nameKey i j, [nameKey i j])))
    (by
      intro p hp rest' hr
      simp only [List.mem_map] at hp
      obtain ⟨j, _, rfl⟩ := hp
      exact tokens_keyShaped (Or.inl rfl) (nameKey_shaped i j) rest' hr)
    rest hrest
  simp only [List.map_map] at h
  rw [pathOf]
  convert h using 2
  rw [← flatten_map_singleton (nameKey i) (List.range n)]
  rfl

lemma tokens_basic_sub (i n : Nat) (d : String)
    (hd : ∀ c ∈ d.data, ¬(c = '#' ∨ c = ':'))
    (rest : List Char) (hrest : cleanRest rest) :
    tokens ((pathOf i n ++ " " ++ d ++ " " ++ valKey i).data ++ rest)
      = ((List.range n).map (nameKey i) ++ [valKey i]) ++ tokens rest := by
  simp only [String.data_append, List.append_assoc, List.cons_append, List.nil_append]
  rw [tokens_pathOf i n _ (cleanRest_cons (by decide))]
  rw [tokens_cons_plain _ _ (by decide)]
  rw [tokens_no_sigil d.data _ hd]
  rw [tokens_cons_plain _ _ (by decide)]
  rw [tokens_keyShaped (Or.inr rfl) (valKey_shaped i) rest hrest]

lemma tokens_path_eq_key (i n j : Nat) (rest : List Char) (hrest : cleanRest rest) :
    tokens ((pathOf i n ++ " = " ++ valKeyIdx i j).data ++ rest)
      = ((List.range n).map (nameKey i) ++ [valKeyIdx i j]) ++ tokens rest := by
  simp only [String.data_append, List.append_assoc, List.cons_append, List.nil_append]
  rw [tokens_pathOf i n _ (cleanRest_cons (by decide))]
  repeat rw [tokens_cons_plain _ _ (by decide)]
  rw [tokens_keyShaped (Or.inr rfl) (valKeyIdx_shaped i j) rest hrest]

lemma tokens_in_checks (i n : Nat) (js : List Nat) (rest : List Char) (hrest : cleanRest rest) :
    tokens ((joinSep " OR " (js.map (fun j => pathOf i n ++ " = " ++ valKeyIdx i j))).data ++ rest)
      = (js.map (fun j => (List.range n).map (nameKey i) ++ [valKeyIdx i j])).flatten
          ++ tokens rest := by
  have h := tokens_joinSep " OR " or_sep_nosig or_sep_clean (by decide)
    (js.map (fun j => (pathOf i n ++ " = " ++ valKeyIdx i j,
       (List.range n).map (nameKey i) ++ [valKeyIdx i j])))
    (by
      intro p hp rest' hr
      simp only [List.mem_map] at hp
      obtain ⟨j, _, rfl⟩ := hp
      exact tokens_path_eq_key i n j rest' hr)
    rest hrest
  simp only [List.map_map] at h
  exact h

lemma tokens_like_clause (i n t : Nat) (rest : List Char) (hrest : cleanRest rest) :
    tokens ((likeOrClause (pathOf i n) i t).data ++ rest)
      = ((List.range n).map (nameKey i) ++ [valKeyCase i t "l"]
          ++ (List.range n).map (nameKey i) ++ [valKeyCase i t "u"]
          ++ (List.range n).map (nameKey i) ++ [valKeyCase i t "o"]) ++ tokens rest := by
  simp only [likeOrClause, String.data_append, List.append_assoc, List.cons_append,
    List.nil_append]
  repeat rw [tokens_cons_plain _ _ (by decide)]
  rw [tokens_pathOf i n _ (cleanRest_cons (by decide))]
  repeat rw [tokens_cons_plain _ _ (by decide)]
  rw [tokens_keyShaped (Or.inr rfl) (valKeyCase_shaped i t "l" (by decide)) _
    (cleanRest_cons (by decide))]
  repeat rw [tokens_cons_plain _ _ (by decide)]
  rw [tokens_pathOf i n _ (cleanRest_cons (by decide))]
  repeat rw [tokens_cons_plain _ _ (by decide)]
  rw [tokens_keyShaped (Or.inr rfl) (valKeyCase_shaped i t "u" (by decide)) _
    (cleanRest_cons (by decide))]
  repeat rw [tokens_cons_plain _ _ (by decide)]
  rw [tokens_pathOf i n _ (cleanRest_cons (by decide))]
  repeat rw [tokens_cons_plain _ _ (by decide)]
  rw [tokens_keyShaped (Or.inr rfl) (valKeyCase_shaped i t "o" (by decide)) _
    (cleanRest_cons (by decide))]
  repeat rw [tokens_cons_plain _ _ (by decide)]

lemma tokens_attr_exists (s : String) (i n : Nat)
    (hs : ∀ c ∈ s.data, ¬(c = '#' ∨ c = ':')) (rest : List Char) (hrest : cleanRest rest) :
    tokens ((s ++ pathOf i n ++ ")").data ++ rest)
      = (List.range n).map (nameKey i) ++ tokens rest := by
  simp only [String.data_append, List.append_assoc, List.cons_append, List.nil_append]
  rw [tokens_no_sigil s.data _ hs]
  rw [tokens_pathOf i n _ (cleanRest_cons (by decide))]
  rw [tokens_cons_plain _ _ (by decide)]

lemma tokens_like_not_clause (i n t : Nat) (rest : List Char) (hrest : cleanRest rest) :
    tokens ((("NOT (" ++ likeOrClause (pathOf i n) i t ++ ")")).data ++ rest)
      = ((List.range n).map (nameKey i) ++ [valKeyCase i t "l"]
          ++ (List.range n).map (nameKey i) ++ [valKeyCase i t "u"]
          ++ (List.range n).map (nameKey i) ++ [valKeyCase i t "o"]) ++ tokens rest := by
  simp only [String.data_append, List.append_assoc, List.cons_append, List.nil_append]
  repeat rw [tokens_cons_plain _ _ (by decide)]
  rw [tokens_like_clause i n t (')' :: rest) (cleanRest_cons (by decide))]
  rw [tokens_cons_plain _ _ (by decide)]
  simp [List.append_assoc]

lemma tokens_like_whole_pos (i n : Nat) (js : List Nat) (rest : List Char)
    (hrest : cleanRest rest) :
    tokens ((("(" ++ joinSep " AND "
        (js.map (fun t => likeOrClause (pathOf i n) i t)) ++ ")")).data ++ rest)
      = (js.map (fun t => (List.range n).map (nameKey i) ++ [valKeyCase i t "l"]
          ++ (List.range n).map (nameKey i) ++ [valKeyCase i t "u"]
          ++ (List.range n).map (nameKey i) ++ [valKeyCase i t "o"])).flatten
        ++ tokens rest := by
  simp only [String.data_append, List.append_assoc, List.cons_append, List.nil_append]
  rw [tokens_cons_plain _ _ (by decide)]
  have h := tokens_joinSep " AND " and_sep_nosig and_sep_clean (by decide)
    (js.map (fun t => (likeOrClause (pathOf i n) i t,
      (List.range n).map (nameKey i) ++ [valKeyCase i t "l"]
        ++ (List.range n).map (nameKey i) ++ [valKeyCase i t "u"]
        ++ (List.range n).map (nameKey i) ++ [valKeyCase i t "o"])))
    (by
      intro p hp rest' hr
      simp only [List.mem_map] at hp
      obtain ⟨t, _, rfl⟩ := hp
      exact tokens_like_clause i n t rest' hr)
    (')' :: rest) (cleanRest_cons (by decide))
  simp only [List.map_map] at h
  rw [show ((fun p => p.1) ∘ fun t => (likeOrClause (pathOf i n) i t,
      (List.range n).map (nameKey i) ++ [valKeyCase i t "l"]
        ++ (List.range n).map (nameKey i) ++ [valKeyCase i t "u"]
        ++ (List.range n).map (nameKey i) ++ [valKeyCase i t "o"]))
    = (fun t => likeOrClause (pathOf i n) i t) from rfl] at h
  rw [h, tokens_cons_plain _ _ (by decide)]
  simp only [List.append_assoc]
  rfl

lemma tokens_like_whole_neg (i n : Nat) (js : List Nat) (rest : List Char)
    (hrest : cleanRest rest) :
    tokens ((joinSep " AND "
        (js.map (fun t => "NOT (" ++ likeOrClause (pathOf i n) i t ++ ")"))).data ++ rest)
      = (js.map (fun t => (List.range n).map (nameKey i) ++ [valKeyCase i t "l"]
          ++ (List.range n).map (nameKey i) ++ [valKeyCase i t "u"]
          ++ (List.range n).map (nameKey i) ++ [valKeyCase i t "o"])).flatten
        ++ tokens rest := by
  have h := tokens_joinSep " AND " and_sep_nosig and_sep_clean (by decide)
    (js.map (fun t => ("NOT (" ++ likeOrClause (pathOf i n) i t ++ ")",
      (List.range n).map (nameKey i) ++ [valKeyCase i t "l"]
        ++ (List.range n).map (nameKey i) ++ [valKeyCase i t "u"]
        ++ (List.range n).map (nameKey i) ++ [valKeyCase i t "o"])))
    (by
      intro p hp rest' hr
      simp only [List.mem_map] at hp
      obtain ⟨t, _, rfl⟩ := hp
      exact tokens_like_not_clause i n t rest' hr)
    rest hrest
  simp only [List.map_map] at h
  rw [show ((fun p => p.1) ∘ fun t => ("NOT (" ++ likeOrClause (pathOf i n) i t ++ ")",
      (List.range n).map (nameKey i) ++ [valKeyCase i t "l"]
        ++ (List.range n).map (nameKey i) ++ [valKeyCase i t "u"]
        ++ (List.range n).map (nameKey i) ++ [valKeyCase i t "o"]))
    = (fun t => "NOT (" ++ likeOrClause (pathOf i n) i t ++ ")") from rfl] at h
  rw [h]
  simp only [List.append_assoc]
  rfl

lemma tokens_in_whole_pos (i n : Nat) (js : List Nat) (rest : List Char)
    (hrest : cleanRest rest) :
    tokens ((("(" ++ joinSep " OR "
        (js.map (fun j => pathOf i n ++ " = " ++ valKeyIdx i j)) ++ ")")).data ++ rest)
      = (js.map (fun j => (List.range n).map (nameKey i) ++ [valKeyIdx i j])).flatten
        ++ tokens rest := by
  simp only [String.data_append, List.append_assoc, List.cons_append, List.nil_append]
  rw [tokens_cons_plain _ _ (by decide)]
  rw [tokens_in_checks i n js (')' :: rest) (cleanRest_cons (by decide))]
  rw [tokens_cons_plain _ _ (by decide)]

lemma tokens_in_whole_neg (i n : Nat) (js : List Nat) (rest : List Char)
    (hrest : cleanRest rest) :
    tokens ((("NOT " ++ ("(" ++ joinSep " OR "
        (js.map (fun j => pathOf i n ++ " = " ++ valKeyIdx i j)) ++ ")"))).data ++ rest)
      = (js.map (fun j => (List.range n).map (nameKey i) ++ [valKeyIdx i j])).flatten
        ++ tokens rest := by
  rw [String.data_append, List.append_assoc]
  rw [tokens_no_sigil ("NOT " : String).data _ (by decide)]
  rw [tokens_in_whole_pos i n js rest hrest]

lemma addPathNames_spec (i : Nat) :
    ∀ (parts : List String) (j0 : Nat) (e : DynamoDBFilterExpression)
      (ns : List (String × String)),
      e.ExpressionAttributeNames = some ns →
      (∀ j, j0 ≤ j → nameKey i j ∉ keysOf ns) →
      addPathNames i e parts j0
        = withNames e (ns ++ (List.enumFrom j0 parts).map (fun p => (nameKey i p.1, p.2))) := by
  intro parts
  induction parts with
  | nil =>
    intro j0 e ns hns _
    simp only [addPathNames, List.enumFrom, List.map_nil, List.append_nil, withNames]
    rw [← hns]
  | cons part rest ih =>
    intro j0 e ns hns hfresh
    simp only [addPathNames]
    have hset : (setName e (nameKey i j0) part).ExpressionAttributeNames
        = some (ns ++ [(nameKey i j0, part)]) := by
      simp only [setName, hns, Option.getD_some]
      rw [assocSet_fresh _ _ _ (hfresh j0 le_rfl)]
    rw [ih (j0 + 1) _ (ns ++ [(nameKey i j0, part)]) hset ?hfr]
    case hfr =>
      intro j hj
      rw [keysOf_append]
      simp only [List.mem_append, not_or]
      refine ⟨hfresh j (by omega), ?_⟩
      simp only [keysOf, List.map_cons, List.map_nil, List.mem_cons,
        List.not_mem_nil, or_false]
      intro hk
      obtain ⟨-, hj'⟩ := nameKey_inj hk
      omega
    simp only [List.enumFrom, List.map_cons, withNames, setName, List.append_assoc,
      List.cons_append, List.nil_append]

lemma buildInTerms_spec (path : String) (i : Nat) :
    ∀ (vals : List JSValue) (j0 : Nat) (e : DynamoDBFilterExpression)
      (vs : List (String × DValue)),
      e.ExpressionAttributeValues = some vs →
      (∀ j, j0 ≤ j → valKeyIdx i j ∉ keysOf vs) →
      buildInTerms path i e vals j0
        = (withVals e (vs ++ (List.enumFrom j0 vals).map
            (fun p => (valKeyIdx i p.1, toDynamoDBValue p.2))),
           (List.enumFrom j0 vals).map (fun p => path ++ " = " ++ valKeyIdx i p.1)) := by
  intro vals
  induction vals with
  | nil =>
    intro j0 e vs hvs _
    simp only [buildInTerms, List.enumFrom, List.map_nil, List.append_nil, withVals]
    rw [← hvs]
  | cons v rest ih =>
    intro j0 e vs hvs hfresh
    simp only [buildInTerms]
    have hset : (setValue e (valKeyIdx i j0) (toDynamoDBValue v)).ExpressionAttributeValues
        = some (vs ++ [(valKeyIdx i j0, toDynamoDBValue v)]) := by
      simp only [setValue, hvs, Option.getD_some]
      rw [assocSet_fresh _ _ _ (hfresh j0 le_rfl)]
    rw [ih (j0 + 1) _ (vs ++ [(valKeyIdx i j0, toDynamoDBValue v)]) hset ?hfr]
    case hfr =>
      intro j hj
      rw [keysOf_append]
      simp only [List.mem_append, not_or]
      refine ⟨hfresh j (by omega), ?_⟩
      simp only [keysOf, List.map_cons, List.map_nil, List.mem_cons,
        List.not_mem_nil, or_false]
      intro hk
      obtain ⟨-, hj'⟩ := valKeyIdx_inj hk
      omega
    simp only [List.enumFrom, List.map_cons, withVals, setValue, List.append_assoc,
      List.cons_append, List.nil_append]


lemma operatorMap_nosig {op d : String} (h : operatorMap op = some d) :
    ∀ c ∈ d.data, ¬(c = '#' ∨ c = ':') := by
  simp only [operatorMap] at h
  split at h
  · injection h with h; subst h; decide
  · split at h
    · injection h with h; subst h; decide
    · split at h
      · injection h with h; subst h; decide
      · split at h
        · injection h with h; subst h; decide
        · split at h
          · injection h with h; subst h; decide
          · split at h
            · injection h with h; subst h; decide
            · split at h
              · injection h with h; subst h; decide
              · split at h
                · injection h with h; subst h; decide
                · split at h
                  · injection h with h; subst h; decide
                  · split at h
                    · injection h with h; subst h; decide
                    · cases h

lemma keysOf_map_pair {α β : Type} (l : List α) (g : α → String) (h : α → β) :
    keysOf (l.map (fun x => (g x, h x))) = l.map g := by
  simp only [keysOf, List.map_map]
  rfl

lemma enum_map_fst_comp {α β : Type} (l : List α) (g : Nat → β) :
    l.enum.map (fun p => g p.1) = (List.range l.length).map g := by
  rw [show (fun p : Nat × α => g p.1) = g ∘ Prod.fst from rfl, ← List.map_map,
    List.enum_map_fst]

lemma keysOf_filterNameEntries (i : Nat) (f : IFilterQuery) :
    keysOf (filterNameEntries i f)
      = (List.range (splitOnDot f.field).length).map (nameKey i) := by
  simp only [filterNameEntries]
  rw [show (fun p : Nat × String => (nameKey i p.1, p.2))
    = (fun p : Nat × String => ((fun q : Nat × String => nameKey i q.1) p, p.2)) from rfl]
  rw [keysOf_map_pair ((splitOnDot f.field).enum) (fun p => nameKey i p.1) (fun p => p.2)]
  exact enum_map_fst_comp _ _

lemma keysOf_likeSpecEntries (i : Nat) (ts : List String) :
    keysOf (likeSpecEntries i ts)
      = ((List.range ts.length).map (fun t =>
          [valKeyCase i t "l", valKeyCase i t "u", valKeyCase i t "o"])).flatten := by
  simp only [likeSpecEntries, keysOf, List.map_flatten, List.map_map]
  congr 1
  rw [← enum_map_fst_comp ts (fun t =>
    [valKeyCase i t "l", valKeyCase i t "u", valKeyCase i t "o"])]
  rfl

lemma enumFrom_zero {α : Type} (l : List α) : List.enumFrom 0 l = l.enum :=
  List.enum_eq_enumFrom.symm

lemma withNames_vals (e : DynamoDBFilterExpression) (ns : List (String × String)) :
    (withNames e ns).ExpressionAttributeValues = e.ExpressionAttributeValues := rfl

lemma setValue_as_withVals (e : DynamoDBFilterExpression) (k : String) (v : DValue)
    (vs : List (String × DValue)) (hvs : e.ExpressionAttributeValues = some vs)
    (hfresh : k ∉ keysOf vs) :
    setValue e k v = withVals e (vs ++ [(k, v)]) := by
  simp only [setValue, hvs, Option.getD_some, withVals]
  rw [assocSet_fresh _ _ _ hfresh]

lemma buildSubExpression_spec_basic (i : Nat) (f : IFilterQuery)
    (e : DynamoDBFilterExpression) (ns : List (String × String))
    (vs : List (String × DValue))
    (hns : e.ExpressionAttributeNames = some ns)
    (hvs : e.ExpressionAttributeValues = some vs)
    (hfn : ∀ j, nameKey i j ∉ keysOf ns)
    (hfv : ∀ k, isIdxValKey i k → k ∉ keysOf vs)
    (d : String)
    (hop4 : ¬(f.operator = "like" ∨ f.operator = "not like" ∨ f.operator = "in"
      ∨ f.operator = "not in"))
    (hmap : operatorMap f.operator = some d) :
    ∃ (sub : String) (toks : List String),
      buildSubExpression e f.field f.operator f.value i
        = .ok (withVals (withNames e (ns ++ filterNameEntries i f))
            (vs ++ filterValueEntries i f), sub) ∧
      (∀ rest, cleanRest rest → tokens (sub.data ++ rest) = toks ++ tokens rest) ∧
      (∀ t ∈ toks, (keyShaped '#' t ∧ t ∈ keysOf (filterNameEntries i f)) ∨
        (keyShaped ':' t ∧ t ∈ keysOf (filterValueEntries i f))) := by
  have hfne : (List.enumFrom 0 (splitOnDot f.field)).map (fun p => (nameKey i p.1, p.2))
      = filterNameEntries i f := by
    rw [filterNameEntries, enumFrom_zero]
  have hfve : filterValueEntries i f = [(valKey i, toDynamoDBValue f.value)] := by
    rw [filterValueEntries, if_neg (fun h => hop4 (by tauto)),
      if_neg (fun h => hop4 (by tauto))]
  refine ⟨pathOf i (splitOnDot f.field).length ++ " " ++ d ++ " " ++ valKey i,
    (List.range (splitOnDot f.field).length).map (nameKey i) ++ [valKey i], ?_, ?_, ?_⟩
  · simp only [buildSubExpression]
    rw [if_neg (fun h => hop4 (by tauto)), if_neg (fun h => hop4 (by tauto)),
      if_neg (fun h => hop4 (by tauto)), if_neg (fun h => hop4 (by tauto))]
    simp only [buildBasicExpression, hmap]
    rw [addPathNames_spec i (splitOnDot f.field) 0 e ns hns (fun j _ => hfn j), hfne]
    rw [setValue_as_withVals _ _ _ vs (by rw [withNames_vals]; exact hvs)
      (hfv (valKey i) (Or.inl rfl))]
    rw [hfve]
  · intro rest hrest
    exact tokens_basic_sub i (splitOnDot f.field).length d (operatorMap_nosig hmap)
      rest hrest
  · intro t ht
    rcases List.mem_append.mp ht with ht | ht
    · simp only [List.mem_map] at ht
      obtain ⟨j, hj, rfl⟩ := ht
      refine Or.inl ⟨nameKey_shaped i j, ?_⟩
      rw [keysOf_filterNameEntries]
      exact List.mem_map.mpr ⟨j, hj, rfl⟩
    · simp only [List.mem_singleton] at ht
      subst ht
      refine Or.inr ⟨valKey_shaped i, ?_⟩
      rw [hfve]
      simp [keysOf]

lemma keysOf_inEntries (i : Nat) (vals : List JSValue) :
    keysOf (vals.enum.map (fun p => (valKeyIdx i p.1, toDynamoDBValue p.2)))
      = (List.range vals.length).map (valKeyIdx i) := by
  rw [show (fun p : Nat × JSValue => (valKeyIdx i p.1, toDynamoDBValue p.2))
    = (fun p : Nat × JSValue =>
        ((fun q : Nat × JSValue => valKeyIdx i q.1) p, toDynamoDBValue p.2)) from rfl]
  rw [keysOf_map_pair (vals.enum) (fun p => valKeyIdx i p.1) (fun p => toDynamoDBValue p.2)]
  exact enum_map_fst_comp vals (valKeyIdx i)

lemma buildSubExpression_spec_in (i : Nat) (f : IFilterQuery)
    (e : DynamoDBFilterExpression) (ns : List (String × String))
    (vs : List (String × DValue))
    (hns : e.ExpressionAttributeNames = some ns)
    (hvs : e.ExpressionAttributeValues = some vs)
    (hfn : ∀ j, nameKey i j ∉ keysOf ns)
    (hfv : ∀ k, isIdxValKey i k → k ∉ keysOf vs)
    (isNot : Bool)
    (hop : f.operator = (if isNot then "not in" else "in")) :
    ∃ (sub : String) (toks : List String),
      buildSubExpression e f.field f.operator f.value i
        = .ok (withVals (withNames e (ns ++ filterNameEntries i f))
            (vs ++ filterValueEntries i f), sub) ∧
      (∀ rest, cleanRest rest → tokens (sub.data ++ rest) = toks ++ tokens rest) ∧
      (∀ t ∈ toks, (keyShaped '#' t ∧ t ∈ keysOf (filterNameEntries i f)) ∨
        (keyShaped ':' t ∧ t ∈ keysOf (filterValueEntries i f))) := by
  have hfne : (List.enumFrom 0 (splitOnDot f.field)).map (fun p => (nameKey i p.1, p.2))
      = filterNameEntries i f := by
    rw [filterNameEntries, enumFrom_zero]
  have hfve : filterValueEntries i f
      = (inValues f.value).enum.map (fun p => (valKeyIdx i p.1, toDynamoDBValue p.2)) := by
    cases isNot with
    | false =>
      replace hop : f.operator = "in" := hop
      rw [filterValueEntries, if_neg (by rw [hop]; decide), if_pos (by rw [hop]; tauto)]
    | true =>
      replace hop : f.operator = "not in" := hop
      rw [filterValueEntries, if_neg (by rw [hop]; decide), if_pos (by rw [hop]; tauto)]
  have hchecks : (List.enumFrom 0 (inValues f.value)).map
      (fun p => pathOf i (splitOnDot f.field).length ++ " = " ++ valKeyIdx i p.1)
      = (List.range (inValues f.value).length).map
        (fun j => pathOf i (splitOnDot f.field).length ++ " = " ++ valKeyIdx i j) := by
    rw [enumFrom_zero]
    exact enum_map_fst_comp (inValues f.value)
      (fun j => pathOf i (splitOnDot f.field).length ++ " = " ++ valKeyIdx i j)
  have hvals₁ : (withNames e (ns ++ filterNameEntries i f)).ExpressionAttributeValues
      = some vs := by
    rw [withNames_vals]
    exact hvs
  have hterms := buildInTerms_spec (pathOf i (splitOnDot f.field).length) i
    (inValues f.value) 0 (withNames e (ns ++ filterNameEntries i f)) vs hvals₁
    (fun j _ => hfv _ (Or.inr (Or.inl ⟨j, rfl⟩)))
  have htokcls : ∀ t ∈ ((List.range (inValues f.value).length).map
        (fun j => (List.range (splitOnDot f.field).length).map (nameKey i)
          ++ [valKeyIdx i j])).flatten,
      (keyShaped '#' t ∧ t ∈ keysOf (filterNameEntries i f)) ∨
      (keyShaped ':' t ∧ t ∈ keysOf (filterValueEntries i f)) := by
    intro t ht
    rw [List.mem_flatten] at ht
    obtain ⟨l, hl, htl⟩ := ht
    simp only [List.mem_map] at hl
    obtain ⟨j, hj, rfl⟩ := hl
    rcases List.mem_append.mp htl with ht | ht
    · simp only [List.mem_map] at ht
      obtain ⟨j', hj', rfl⟩ := ht
      refine Or.inl ⟨nameKey_shaped i j', ?_⟩
      rw [keysOf_filterNameEntries]
      exact List.mem_map.mpr ⟨j', hj', rfl⟩
    · simp only [List.mem_singleton] at ht
      subst ht
      refine Or.inr ⟨valKeyIdx_shaped i j, ?_⟩
      rw [hfve, keysOf_inEntries]
      exact List.mem_map.mpr ⟨j, hj, rfl⟩
  cases isNot with
  | false =>
    replace hop : f.operator = "in" := hop
    refine ⟨"(" ++ joinSep " OR " ((List.range (inValues f.value).length).map
        (fun j => pathOf i (splitOnDot f.field).length ++ " = " ++ valKeyIdx i j)) ++ ")",
      ((List.range (inValues f.value).length).map
        (fun j => (List.range (splitOnDot f.field).length).map (nameKey i)
          ++ [valKeyIdx i j])).flatten, ?_, ?_, htokcls⟩
    · rw [hop]
      simp only [buildSubExpression]
      rw [if_neg (by decide), if_neg (by decide), if_pos trivial]
      rw [addPathNames_spec i (splitOnDot f.field) 0 e ns hns (fun j _ => hfn j), hfne]
      simp only [buildInExpression, hterms]
      rw [hchecks, hfve, enumFrom_zero]
      rfl
    · intro rest hrest
      exact tokens_in_whole_pos i (splitOnDot f.field).length _ rest hrest
  | true =>
    replace hop : f.operator = "not in" := hop
    refine ⟨"NOT " ++ ("(" ++ joinSep " OR " ((List.range (inValues f.value).length).map
        (fun j => pathOf i (splitOnDot f.field).length ++ " = " ++ valKeyIdx i j)) ++ ")"),
      ((List.range (inValues f.value).length).map
        (fun j => (List.range (splitOnDot f.field).length).map (nameKey i)
          ++ [valKeyIdx i j])).flatten, ?_, ?_, htokcls⟩
    · rw [hop]
      simp only [buildSubExpression]
      rw [if_neg (by decide), if_neg (by decide), if_neg (by decide), if_pos trivial]
      rw [addPathNames_spec i (splitOnDot f.field) 0 e ns hns (fun j _ => hfn j), hfne]
      simp only [buildInExpression, hterms]
      rw [hchecks, hfve, enumFrom_zero]
      rfl
    · intro rest hrest
      exact tokens_in_whole_neg i (splitOnDot f.field).length _ rest hrest

lemma withVals_self (e : DynamoDBFilterExpression) (vs : List (String × DValue))
    (h : e.ExpressionAttributeValues = some vs) : withVals e vs = e := by
  cases e with
  | mk k fe n v =>
    simp only [withVals]
    simp only at h
    rw [h]

lemma buildSubExpression_spec_like (i : Nat) (f : IFilterQuery)
    (e : DynamoDBFilterExpression) (ns : List (String × String))
    (vs : List (String × DValue))
    (hns : e.ExpressionAttributeNames = some ns)
    (hvs : e.ExpressionAttributeValues = some vs)
    (hfn : ∀ j, nameKey i j ∉ keysOf ns)
    (hfv : ∀ k, isIdxValKey i k → k ∉ keysOf vs)
    (isNot : Bool)
    (hop : f.operator = (if isNot then "not like" else "like")) :
    ∃ (sub : String) (toks : List String),
      buildSubExpression e f.field f.operator f.value i
        = .ok (withVals (withNames e (ns ++ filterNameEntries i f))
            (vs ++ filterValueEntries i f), sub) ∧
      (∀ rest, cleanRest rest → tokens (sub.data ++ rest) = toks ++ tokens rest) ∧
      (∀ t ∈ toks, (keyShaped '#' t ∧ t ∈ keysOf (filterNameEntries i f)) ∨
        (keyShaped ':' t ∧ t ∈ keysOf (filterValueEntries i f))) := by
  have hfne : (List.enumFrom 0 (splitOnDot f.field)).map (fun p => (nameKey i p.1, p.2))
      = filterNameEntries i f := by
    rw [filterNameEntries, enumFrom_zero]
  have hop2 : f.operator = "like" ∨ f.operator = "not like" := by
    cases isNot with
    | false => exact Or.inl hop
    | true => exact Or.inr hop
  have hfve : filterValueEntries i f = likeSpecEntries i (likeSearchTerms f.value) := by
    rw [filterValueEntries, if_pos hop2]
  have hvals₁ : (withNames e (ns ++ filterNameEntries i f)).ExpressionAttributeValues
      = some vs := by
    rw [withNames_vals]
    exact hvs
  by_cases hts : likeSearchTerms f.value = []
  · have hempty : filterValueEntries i f = [] := by
      rw [hfve, hts]
      rfl
    have hback : withVals (withNames e (ns ++ filterNameEntries i f))
        (vs ++ filterValueEntries i f) = withNames e (ns ++ filterNameEntries i f) := by
      rw [hempty, List.append_nil]
      exact withVals_self _ vs hvals₁
    have hnametok : ∀ t ∈ (List.range (splitOnDot f.field).length).map (nameKey i),
        (keyShaped '#' t ∧ t ∈ keysOf (filterNameEntries i f)) ∨
        (keyShaped ':' t ∧ t ∈ keysOf (filterValueEntries i f)) := by
      intro t ht
      simp only [List.mem_map] at ht
      obtain ⟨j, hj, rfl⟩ := ht
      refine Or.inl ⟨nameKey_shaped i j, ?_⟩
      rw [keysOf_filterNameEntries]
      exact List.mem_map.mpr ⟨j, hj, rfl⟩
    cases isNot with
    | false =>
      replace hop : f.operator = "like" := hop
      refine ⟨"attribute_not_exists(" ++ pathOf i (splitOnDot f.field).length ++ ")",
        (List.range (splitOnDot f.field).length).map (nameKey i), ?_, ?_, hnametok⟩
      · rw [hop]
        simp only [buildSubExpression]
        rw [if_pos (by trivial)]
        rw [addPathNames_spec i (splitOnDot f.field) 0 e ns hns (fun j _ => hfn j), hfne]
        simp only [buildLikeExpression]
        rw [if_pos (by rw [hts]; rfl), hback]
        rfl
      · intro rest hrest
        exact tokens_attr_exists "attribute_not_exists(" i _ (by decide) rest hrest
    | true =>
      replace hop : f.operator = "not like" := hop
      refine ⟨"attribute_exists(" ++ pathOf i (splitOnDot f.field).length ++ ")",
        (List.range (splitOnDot f.field).length).map (nameKey i), ?_, ?_, hnametok⟩
      · rw [hop]
        simp only [buildSubExpression]
        rw [if_neg (by decide), if_pos (by trivial)]
        rw [addPathNames_spec i (splitOnDot f.field) 0 e ns hns (fun j _ => hfn j), hfne]
        simp only [buildLikeExpression]
        rw [if_pos (by rw [hts]; rfl), hback]
        rfl
      · intro rest hrest
        exact tokens_attr_exists "attribute_exists(" i _ (by decide) rest hrest
  · have hentries : ((List.enumFrom 0 (likeSearchTerms f.value)).map
        (fun p => likeTermEntries i p.1 p.2)).flatten
        = likeSpecEntries i (likeSearchTerms f.value) := by
      rw [enumFrom_zero]
      rfl
    have htokcls : ∀ t ∈ ((List.range (likeSearchTerms f.value).length).map
          (fun tI => (List.range (splitOnDot f.field).length).map (nameKey i)
            ++ [valKeyCase i tI "l"]
            ++ (List.range (splitOnDot f.field).length).map (nameKey i)
            ++ [valKeyCase i tI "u"]
            ++ (List.range (splitOnDot f.field).length).map (nameKey i)
            ++ [valKeyCase i tI "o"])).flatten,
        (keyShaped '#' t ∧ t ∈ keysOf (filterNameEntries i f)) ∨
        (keyShaped ':' t ∧ t ∈ keysOf (filterValueEntries i f)) := by
      intro t ht
      rw [List.mem_flatten] at ht
      obtain ⟨l, hl, htl⟩ := ht
      simp only [List.mem_map] at hl
      obtain ⟨tI, htI, rfl⟩ := hl
      have hname : ∀ j, j ∈ List.range (splitOnDot f.field).length →
          (keyShaped '#' (nameKey i j) ∧ nameKey i j ∈ keysOf (filterNameEntries i f)) ∨
          (keyShaped ':' (nameKey i j) ∧ nameKey i j ∈ keysOf (filterValueEntries i f)) := by
        intro j hj
        refine Or.inl ⟨nameKey_shaped i j, ?_⟩
        rw [keysOf_filterNameEntries]
        exact List.mem_map.mpr ⟨j, hj, rfl⟩
      have hcase : ∀ c, c ∈ (["l", "u", "o"] : List String) →
          (keyShaped '#' (valKeyCase i tI c)
            ∧ valKeyCase i tI c ∈ keysOf (filterNameEntries i f)) ∨
          (keyShaped ':' (valKeyCase i tI c)
            ∧ valKeyCase i tI c ∈ keysOf (filterValueEntries i f)) := by
        intro c hc
        refine Or.inr ⟨valKeyCase_shaped i tI c hc, ?_⟩
        rw [hfve, keysOf_likeSpecEntries]
        rw [List.mem_flatten]
        refine ⟨[valKeyCase i tI "l", valKeyCase i tI "u", valKeyCase i tI "o"],
          List.mem_map.mpr ⟨tI, htI, rfl⟩, ?_⟩
        simp only [List.mem_cons, List.not_mem_nil, or_false] at hc
        rcases hc with rfl | rfl | rfl <;> simp
      simp only [List.append_assoc, List.mem_append, List.mem_map,
        List.mem_singleton] at htl
      rcases htl with ⟨j, hj, rfl⟩ | rfl | ⟨j, hj, rfl⟩ | rfl | ⟨j, hj, rfl⟩ | rfl
      · exact hname j (by simpa using hj)
      · exact hcase "l" (by simp)
      · exact hname j (by simpa using hj)
      · exact hcase "u" (by simp)
      · exact hname j (by simpa using hj)
      · exact hcase "o" (by simp)
    cases isNot with
    | false =>
      replace hop : f.operator = "like" := hop
      have hterms := buildLikeTerms_spec (pathOf i (splitOnDot f.field).length) i false
        (likeSearchTerms f.value) 0 (withNames e (ns ++ filterNameEntries i f)) vs hvals₁
        (fun t c _ hc => hfv _ (Or.inr (Or.inr ⟨t, c, hc, rfl⟩)))
      have hclauses : (likeSearchTerms f.value).enum.map
          (fun p => likeOrClause (pathOf i (splitOnDot f.field).length) i p.1)
          = (List.range (likeSearchTerms f.value).length).map
            (fun tI => likeOrClause (pathOf i (splitOnDot f.field).length) i tI) :=
        enum_map_fst_comp (likeSearchTerms f.value)
          (fun tI => likeOrClause (pathOf i (splitOnDot f.field).length) i tI)
      refine ⟨"(" ++ joinSep " AND " ((List.range (likeSearchTerms f.value).length).map
          (fun tI => likeOrClause (pathOf i (splitOnDot f.field).length) i tI)) ++ ")",
        ((List.range (likeSearchTerms f.value).length).map
          (fun tI => (List.range (splitOnDot f.field).length).map (nameKey i)
            ++ [valKeyCase i tI "l"]
            ++ (List.range (splitOnDot f.field).length).map (nameKey i)
            ++ [valKeyCase i tI "u"]
            ++ (List.range (splitOnDot f.field).length).map (nameKey i)
            ++ [valKeyCase i tI "o"])).flatten, ?_, ?_, htokcls⟩
      · rw [hop]
        simp only [buildSubExpression]
        rw [if_pos (by trivial)]
        rw [addPathNames_spec i (splitOnDot f.field) 0 e ns hns (fun j _ => hfn j), hfne]
        simp only [buildLikeExpression]
        rw [if_neg (by simpa using hts)]
        rw [hterms]
        simp only [Bool.false_eq_true, if_false]
        rw [enumFrom_zero, hclauses]
        rw [show ((likeSearchTerms f.value).enum.map
            (fun p => likeTermEntries i p.1 p.2)).flatten
          = likeSpecEntries i (likeSearchTerms f.value) from rfl]
        rw [hfve]
      · intro rest hrest
        exact tokens_like_whole_pos i (splitOnDot f.field).length
          (List.range (likeSearchTerms f.value).length) rest hrest
    | true =>
      replace hop : f.operator = "not like" := hop
      have hterms := buildLikeTerms_spec (pathOf i (splitOnDot f.field).length) i true
        (likeSearchTerms f.value) 0 (withNames e (ns ++ filterNameEntries i f)) vs hvals₁
        (fun t c _ hc => hfv _ (Or.inr (Or.inr ⟨t, c, hc, rfl⟩)))
      have hclauses : (likeSearchTerms f.value).enum.map
          (fun p => "NOT (" ++ likeOrClause (pathOf i (splitOnDot f.field).length) i p.1
            ++ ")")
          = (List.range (likeSearchTerms f.value).length).map
            (fun tI => "NOT ("
              ++ likeOrClause (pathOf i (splitOnDot f.field).length) i tI ++ ")") :=
        enum_map_fst_comp (likeSearchTerms f.value)
          (fun tI => "NOT (" ++ likeOrClause (pathOf i (splitOnDot f.field).length) i tI
            ++ ")")
      refine ⟨joinSep " AND " ((List.range (likeSearchTerms f.value).length).map
          (fun tI => "NOT ("
            ++ likeOrClause (pathOf i (splitOnDot f.field).length) i tI ++ ")")),
        ((List.range (likeSearchTerms f.value).length).map
          (fun tI => (List.range (splitOnDot f.field).length).map (nameKey i)
            ++ [valKeyCase i tI "l"]
            ++ (List.range (splitOnDot f.field).length).map (nameKey i)
            ++ [valKeyCase i tI "u"]
            ++ (List.range (splitOnDot f.field).length).map (nameKey i)
            ++ [valKeyCase i tI "o"])).flatten, ?_, ?_, htokcls⟩
      · rw [hop]
        simp only [buildSubExpression]
        rw [if_neg (by decide), if_pos (by trivial)]
        rw [addPathNames_spec i (splitOnDot f.field) 0 e ns hns (fun j _ => hfn j), hfne]
        simp only [buildLikeExpression]
        rw [if_neg (by simpa using hts)]
        rw [hterms]
        simp only [if_true]
        rw [enumFrom_zero, hclauses]
        rw [show ((likeSearchTerms f.value).enum.map
            (fun p => likeTermEntries i p.1 p.2)).flatten
          = likeSpecEntries i (likeSearchTerms f.value) from rfl]
        rw [hfve]
      · intro rest hrest
        exact tokens_like_whole_neg i (splitOnDot f.field).length
          (List.range (likeSearchTerms f.value).length) rest hrest

lemma case_head_not_digit {c : String} (hc : c ∈ (["l", "u", "o"] : List String)) :
    ∀ x, c.data.head? = some x → x.isDigit = false := by
  simp only [List.mem_cons, List.not_mem_nil, or_false] at hc
  rcases hc with rfl | rfl | rfl <;> (intro x hx; simp only [List.head?] at hx) <;>
    (injection hx with hx; subst hx; decide)

lemma isIdxValKey_disjoint {i i' : Nat} {k : String} (hne : i ≠ i')
    (h : isIdxValKey i k) (h' : isIdxValKey i' k) : False := by
  rcases h with rfl | ⟨j, rfl⟩ | ⟨t, c, hc, rfl⟩
  · rcases h' with he | ⟨j', he⟩ | ⟨t', c', hc', he⟩
    · exact hne (valKey_inj he)
    · exact valKey_ne_valKeyIdx i i' j' he
    · exact valKey_ne_valKeyCase i i' t' c' he
  · rcases h' with he | ⟨j', he⟩ | ⟨t', c', hc', he⟩
    · exact valKey_ne_valKeyIdx i' i j he.symm
    · exact hne (valKeyIdx_inj he).1
    · exact valKeyIdx_ne_valKeyCase i j i' t' c' he
  · rcases h' with he | ⟨j', he⟩ | ⟨t', c', hc', he⟩
    · exact valKey_ne_valKeyCase i' i t c he.symm
    · exact valKeyIdx_ne_valKeyCase i' j' i t c he.symm
    · exact hne (valKeyCase_inj (case_head_not_digit hc) (case_head_not_digit hc') he).1

lemma filterValueEntries_keys (i : Nat) (f : IFilterQuery) :
    ∀ k ∈ keysOf (filterValueEntries i f), isIdxValKey i k := by
  intro k hk
  by_cases hlike : f.operator = "like" ∨ f.operator = "not like"
  · simp only [filterValueEntries] at hk
    rw [if_pos hlike, keysOf_likeSpecEntries, List.mem_flatten] at hk
    obtain ⟨l, hl, hkl⟩ := hk
    simp only [List.mem_map] at hl
    obtain ⟨t, _, rfl⟩ := hl
    simp only [List.mem_cons, List.not_mem_nil, or_false] at hkl
    rcases hkl with rfl | rfl | rfl
    · exact Or.inr (Or.inr ⟨t, "l", by simp, rfl⟩)
    · exact Or.inr (Or.inr ⟨t, "u", by simp, rfl⟩)
    · exact Or.inr (Or.inr ⟨t, "o", by simp, rfl⟩)
  · by_cases hin : f.operator = "in" ∨ f.operator = "not in"
    · simp only [filterValueEntries] at hk
      rw [if_neg hlike, if_pos hin, keysOf_inEntries] at hk
      simp only [List.mem_map] at hk
      obtain ⟨j, _, rfl⟩ := hk
      exact Or.inr (Or.inl ⟨j, rfl⟩)
    · simp only [filterValueEntries] at hk
      rw [if_neg hlike, if_neg hin] at hk
      simp only [keysOf, List.map_cons, List.map_nil, List.mem_singleton] at hk
      exact Or.inl hk

lemma filterNameEntries_keys (i : Nat) (f : IFilterQuery) :
    ∀ k ∈ keysOf (filterNameEntries i f), ∃ j, k = nameKey i j := by
  intro k hk
  rw [keysOf_filterNameEntries] at hk
  simp only [List.mem_map] at hk
  obtain ⟨j, _, rfl⟩ := hk
  exact ⟨j, rfl⟩

lemma buildSubExpression_spec (i : Nat) (f : IFilterQuery)
    (e : DynamoDBFilterExpression) (ns : List (String × String))
    (vs : List (String × DValue))
    (hns : e.ExpressionAttributeNames = some ns)
    (hvs : e.ExpressionAttributeValues = some vs)
    (hfn : ∀ j, nameKey i j ∉ keysOf ns)
    (hfv : ∀ k, isIdxValKey i k → k ∉ keysOf vs)
    (hsup : f.operator ∈ supportedOperators) :
    ∃ (sub : String) (toks : List String),
      buildSubExpression e f.field f.operator f.value i
        = .ok (withVals (withNames e (ns ++ filterNameEntries i f))
            (vs ++ filterValueEntries i f), sub) ∧
      (∀ rest, cleanRest rest → tokens (sub.data ++ rest) = toks ++ tokens rest) ∧
      (∀ t ∈ toks, (keyShaped '#' t ∧ t ∈ keysOf (filterNameEntries i f)) ∨
        (keyShaped ':' t ∧ t ∈ keysOf (filterValueEntries i f))) := by
  simp only [supportedOperators, List.mem_cons, List.not_mem_nil, or_false] at hsup
  rcases hsup with h | h | h | h | h | h | h | h | h | h
  · exact buildSubExpression_spec_basic i f e ns vs hns hvs hfn hfv "<"
      (by rw [h]; decide) (by rw [h]; rfl)
  · exact buildSubExpression_spec_basic i f e ns vs hns hvs hfn hfv ">"
      (by rw [h]; decide) (by rw [h]; rfl)
  · exact buildSubExpression_spec_basic i f e ns vs hns hvs hfn hfv "<="
      (by rw [h]; decide) (by rw [h]; rfl)
  · exact buildSubExpression_spec_basic i f e ns vs hns hvs hfn hfv ">="
      (by rw [h]; decide) (by rw [h]; rfl)
  · exact buildSubExpression_spec_basic i f e ns vs hns hvs hfn hfv "="
      (by rw [h]; decide) (by rw [h]; rfl)
  · exact buildSubExpression_spec_basic i f e ns vs hns hvs hfn hfv "<>"
      (by rw [h]; decide) (by rw [h]; rfl)
  · exact buildSubExpression_spec_in i f e ns vs hns hvs hfn hfv false h
  · exact buildSubExpression_spec_in i f e ns vs hns hvs hfn hfv true h
  · exact buildSubExpression_spec_like i f e ns vs hns hvs hfn hfv false h
  · exact buildSubExpression_spec_like i f e ns vs hns hvs hfn hfv true h

lemma withNames_self (e : DynamoDBFilterExpression) (ns : List (String × String))
    (h : e.ExpressionAttributeNames = some ns) : withNames e ns = e := by
  cases e with
  | mk k fe n v =>
    simp only [withNames]
    simp only at h
    rw [h]

lemma buildSubList_spec (fs : List IFilterQuery) :
    ∀ (i0 : Nat) (e : DynamoDBFilterExpression)
      (ns : List (String × String)) (vs : List (String × DValue)),
    e.ExpressionAttributeNames = some ns →
    e.ExpressionAttributeValues = some vs →
    (∀ f ∈ fs, f.operator ∈ supportedOperators) →
    (∀ i' j, i0 ≤ i' → nameKey i' j ∉ keysOf ns) →
    (∀ i' k, i0 ≤ i' → isIdxValKey i' k → k ∉ keysOf vs) →
    ∃ ps : List (String × List String),
      buildSubList e fs i0
        = .ok (withVals (withNames e (ns ++ remNameEntries fs i0))
            (vs ++ remValueEntries fs i0), ps.map (fun p => p.1)) ∧
      (∀ p ∈ ps, ∀ rest, cleanRest rest →
        tokens (p.1.data ++ rest) = p.2 ++ tokens rest) ∧
      (∀ p ∈ ps, ∀ t ∈ p.2,
        (keyShaped '#' t ∧ t ∈ keysOf (remNameEntries fs i0)) ∨
        (keyShaped ':' t ∧ t ∈ keysOf (remValueEntries fs i0))) := by
  induction fs with
  | nil =>
    intro i0 e ns vs hns hvs _ _ _
    refine ⟨[], ?_, ?_, ?_⟩
    · simp only [buildSubList, remNameEntries, remValueEntries, List.append_nil,
        List.map_nil]
      rw [withNames_self e ns hns, withVals_self e vs hvs]
    · intro p hp
      simp at hp
    · intro p hp
      simp at hp
  | cons f rest ih =>
    intro i0 e ns vs hns hvs hsup hfn hfv
    obtain ⟨sub, toks, heq, htok, hcls⟩ :=
      buildSubExpression_spec i0 f e ns vs hns hvs
        (fun j => hfn i0 j (Nat.le_refl i0))
        (fun k hk => hfv i0 k (Nat.le_refl i0) hk)
        (hsup f (List.mem_cons_self f rest))
    have hfn' : ∀ i' j, i0 + 1 ≤ i' →
        nameKey i' j ∉ keysOf (ns ++ filterNameEntries i0 f) := by
      intro i' j hi' hmem
      rw [keysOf_append] at hmem
      rcases List.mem_append.mp hmem with hm | hm
      · exact hfn i' j (Nat.le_of_succ_le hi') hm
      · obtain ⟨j', hj'⟩ := filterNameEntries_keys i0 f _ hm
        have := (nameKey_inj hj').1
        omega
    have hfv' : ∀ i' k, i0 + 1 ≤ i' → isIdxValKey i' k →
        k ∉ keysOf (vs ++ filterValueEntries i0 f) := by
      intro i' k hi' hk hmem
      rw [keysOf_append] at hmem
      rcases List.mem_append.mp hmem with hm | hm
      · exact hfv i' k (Nat.le_of_succ_le hi') hk hm
      · exact isIdxValKey_disjoint (by omega : i' ≠ i0) hk
          (filterValueEntries_keys i0 f _ hm)
    obtain ⟨ps, hps, hptok, hpcls⟩ := ih (i0 + 1)
      (withVals (withNames e (ns ++ filterNameEntries i0 f))
        (vs ++ filterValueEntries i0 f))
      (ns ++ filterNameEntries i0 f) (vs ++ filterValueEntries i0 f)
      rfl rfl (fun f' hf' => hsup f' (List.mem_cons_of_mem f hf')) hfn' hfv'
    refine ⟨(sub, toks) :: ps, ?_, ?_, ?_⟩
    · simp only [buildSubList]
      rw [heq, except_bind_ok]
      rw [show (withVals (withNames e (ns ++ filterNameEntries i0 f))
          (vs ++ filterValueEntries i0 f), sub).1
        = withVals (withNames e (ns ++ filterNameEntries i0 f))
          (vs ++ filterValueEntries i0 f) from rfl]
      rw [hps, except_bind_ok]
      simp only [remNameEntries, remValueEntries, List.map_cons]
      rw [← List.append_assoc, ← List.append_assoc]
      rfl
    · intro p hp
      rcases List.mem_cons.mp hp with rfl | hp
      · exact htok
      · exact hptok p hp
    · intro p hp t ht
      rcases List.mem_cons.mp hp with rfl | hp
      · rcases hcls t ht with ⟨hsh, hm⟩ | ⟨hsh, hm⟩
        · refine Or.inl ⟨hsh, ?_⟩
          simp only [remNameEntries, keysOf_append, List.mem_append]
          exact Or.inl hm
        · refine Or.inr ⟨hsh, ?_⟩
          simp only [remValueEntries, keysOf_append, List.mem_append]
          exact Or.inl hm
      · rcases hpcls p hp t ht with ⟨hsh, hm⟩ | ⟨hsh, hm⟩
        · refine Or.inl ⟨hsh, ?_⟩
          simp only [remNameEntries, keysOf_append, List.mem_append]
          exact Or.inr (by simpa [keysOf_append] using hm)
        · refine Or.inr ⟨hsh, ?_⟩
          simp only [remValueEntries, keysOf_append, List.mem_append]
          exact Or.inr (by simpa [keysOf_append] using hm)

lemma nodup_flatten_blocks {α : Type} (L : List (List α))
    (hn : ∀ l ∈ L, l.Nodup)
    (hd : L.Pairwise (fun a b => ∀ x ∈ a, x ∉ b)) : L.flatten.Nodup := by
  induction L with
  | nil => simp
  | cons a L ih =>
    rw [List.flatten_cons]
    obtain ⟨ha, hL⟩ := List.pairwise_cons.mp hd
    refine List.Nodup.append (hn a (List.mem_cons_self ..))
      (ih (fun l hl => hn l (List.mem_cons_of_mem _ hl)) hL) ?_
    intro x hx hx'
    rw [List.mem_flatten] at hx'
    obtain ⟨l, hl, hxl⟩ := hx'
    exact ha l hl x hx hxl

lemma filterNameEntries_nodup (i : Nat) (f : IFilterQuery) :
    (keysOf (filterNameEntries i f)).Nodup := by
  rw [keysOf_filterNameEntries]
  exact List.Nodup.map (fun a b h => (nameKey_inj h).2) (List.nodup_range _)

lemma filterValueEntries_nodup (i : Nat) (f : IFilterQuery) :
    (keysOf (filterValueEntries i f)).Nodup := by
  by_cases hlike : f.operator = "like" ∨ f.operator = "not like"
  · simp only [filterValueEntries]
    rw [if_pos hlike, keysOf_likeSpecEntries]
    refine nodup_flatten_blocks _ ?_ ?_
    · intro l hl
      simp only [List.mem_map] at hl
      obtain ⟨t, _, rfl⟩ := hl
      refine List.nodup_cons.mpr ⟨?_, List.nodup_cons.mpr ⟨?_, List.nodup_singleton _⟩⟩
      · intro hm
        simp only [List.mem_cons, List.mem_singleton, List.not_mem_nil, or_false] at hm
        rcases hm with hm | hm
        · exact valKeyCase_ne_of_case (by simp) (by simp) (Or.inl (by decide)) hm
        · exact valKeyCase_ne_of_case (by simp) (by simp) (Or.inl (by decide)) hm
      · intro hm
        simp only [List.mem_singleton] at hm
        exact valKeyCase_ne_of_case (by simp) (by simp) (Or.inl (by decide)) hm
    · rw [List.pairwise_map]
      refine List.Pairwise.imp ?_ (List.pairwise_lt_range _)
      intro t t' hlt x hx hx'
      simp only [List.mem_cons, List.mem_singleton, List.not_mem_nil, or_false] at hx hx'
      have hne : t ≠ t' := Nat.ne_of_lt hlt
      rcases hx with rfl | rfl | rfl <;> rcases hx' with hx' | hx' | hx' <;>
        exact valKeyCase_ne_of_case (by simp) (by simp) (Or.inr hne) hx'
  · by_cases hin : f.operator = "in" ∨ f.operator = "not in"
    · simp only [filterValueEntries]
      rw [if_neg hlike, if_pos hin, keysOf_inEntries]
      exact List.Nodup.map (fun a b h => (valKeyIdx_inj h).2) (List.nodup_range _)
    · simp only [filterValueEntries]
      rw [if_neg hlike, if_neg hin]
      simp [keysOf]

lemma remNameEntries_keys (fs : List IFilterQuery) :
    ∀ i0 k, k ∈ keysOf (remNameEntries fs i0) → ∃ i' j, i0 ≤ i' ∧ k = nameKey i' j := by
  induction fs with
  | nil =>
    intro i0 k hk
    simp [remNameEntries, keysOf] at hk
  | cons f rest ih =>
    intro i0 k hk
    simp only [remNameEntries, keysOf_append, List.mem_append] at hk
    rcases hk with hk | hk
    · obtain ⟨j, hj⟩ := filterNameEntries_keys i0 f k hk
      exact ⟨i0, j, Nat.le_refl i0, hj⟩
    · obtain ⟨i', j, hi', hj⟩ := ih (i0 + 1) k hk
      exact ⟨i', j, by omega, hj⟩

lemma remValueEntries_keys (fs : List IFilterQuery) :
    ∀ i0 k, k ∈ keysOf (remValueEntries fs i0) → ∃ i', i0 ≤ i' ∧ isIdxValKey i' k := by
  induction fs with
  | nil =>
    intro i0 k hk
    simp [remValueEntries, keysOf] at hk
  | cons f rest ih =>
    intro i0 k hk
    simp only [remValueEntries, keysOf_append, List.mem_append] at hk
    rcases hk with hk | hk
    · exact ⟨i0, Nat.le_refl i0, filterValueEntries_keys i0 f k hk⟩
    · obtain ⟨i', hi', hk⟩ := ih (i0 + 1) k hk
      exact ⟨i', by omega, hk⟩

lemma remNameEntries_nodup (fs : List IFilterQuery) :
    ∀ i0, (keysOf (remNameEntries fs i0)).Nodup := by
  induction fs with
  | nil =>
    intro i0
    simp [remNameEntries, keysOf]
  | cons f rest ih =>
    intro i0
    simp only [remNameEntries, keysOf_append]
    refine List.Nodup.append (filterNameEntries_nodup i0 f) (ih (i0 + 1)) ?_
    intro k hk hk'
    obtain ⟨j, hj⟩ := filterNameEntries_keys i0 f k hk
    obtain ⟨i', j', hi', hj'⟩ := remNameEntries_keys rest (i0 + 1) k hk'
    have := (nameKey_inj (hj ▸ hj' : nameKey i0 j = nameKey i' j')).1
    omega

lemma remValueEntries_nodup (fs : List IFilterQuery) :
    ∀ i0, (keysOf (remValueEntries fs i0)).Nodup := by
  induction fs with
  | nil =>
    intro i0
    simp [remValueEntries, keysOf]
  | cons f rest ih =>
    intro i0
    simp only [remValueEntries, keysOf_append]
    refine List.Nodup.append (filterValueEntries_nodup i0 f) (ih (i0 + 1)) ?_
    intro k hk hk'
    obtain ⟨i', hi', hvk'⟩ := remValueEntries_keys rest (i0 + 1) k hk'
    exact isIdxValKey_disjoint (by omega : i0 ≠ i') (filterValueEntries_keys i0 f k hk) hvk'

lemma extract_mem (pkName : String) (fs : List IFilterQuery) :
    ∀ f' ∈ (extractPartitionKeyFilter pkName fs).2, f' ∈ fs := by
  induction fs with
  | nil =>
    intro f' h
    simp [extractPartitionKeyFilter] at h
  | cons f rest ih =>
    intro f' h
    simp only [extractPartitionKeyFilter] at h
    by_cases hc : f.field = pkName ∧ f.operator = "="
    · rw [if_pos hc] at h
      exact List.mem_cons_of_mem f h
    · rw [if_neg hc] at h
      rcases List.mem_cons.mp h with rfl | h
      · exact List.mem_cons_self ..
      · exact List.mem_cons_of_mem f (ih f' h)

lemma keyShaped_pk : keyShaped '#' "#pk" := ⟨['p', 'k'], rfl, by decide⟩

lemma keyShaped_pkVal : keyShaped ':' ":pkVal" := ⟨['p', 'k', 'V', 'a', 'l'], rfl, by decide⟩

lemma tokens_pkCond : tokens (("#pk = :pkVal" : String)).data = ["#pk", ":pkVal"] := by
  rw [show (("#pk = :pkVal" : String)).data
    = '#' :: ['p', 'k', ' ', '=', ' ', ':', 'p', 'k', 'V', 'a', 'l'] from rfl]
  rw [tokens_cons_sigil _ _ (by decide)]
  rw [show List.takeWhile isTokenChar ['p', 'k', ' ', '=', ' ', ':', 'p', 'k', 'V', 'a', 'l']
    = ['p', 'k'] from rfl]
  rw [show List.dropWhile isTokenChar ['p', 'k', ' ', '=', ' ', ':', 'p', 'k', 'V', 'a', 'l']
    = [' ', '=', ' ', ':', 'p', 'k', 'V', 'a', 'l'] from rfl]
  rw [tokens_cons_plain _ _ (by decide), tokens_cons_plain _ _ (by decide),
    tokens_cons_plain _ _ (by decide)]
  rw [tokens_cons_sigil _ _ (by decide)]
  rw [show List.takeWhile isTokenChar ['p', 'k', 'V', 'a', 'l']
    = ['p', 'k', 'V', 'a', 'l'] from rfl]
  rw [show List.dropWhile isTokenChar ['p', 'k', 'V', 'a', 'l'] = ([] : List Char) from rfl]
  rw [tokens]

lemma tokens_nil : tokens ([] : List Char) = [] := by rw [tokens]

lemma addFilterExpressions_spec (base : DynamoDBFilterExpression)
    (rrem : List IFilterQuery) (ns : List (String × String)) (vs : List (String × DValue))
    (hbn : base.ExpressionAttributeNames = some ns)
    (hbv : base.ExpressionAttributeValues = some vs)
    (hsup : ∀ f ∈ rrem, f.operator ∈ supportedOperators)
    (hfn : ∀ i' j, nameKey i' j ∉ keysOf ns)
    (hfv : ∀ i' k, isIdxValKey i' k → k ∉ keysOf vs)
    (expr : DynamoDBFilterExpression)
    (h : addFilterExpressions base rrem = .ok expr) :
    expr.KeyConditionExpression = base.KeyConditionExpression ∧
    expr.ExpressionAttributeNames = some (ns ++ remNameEntries rrem 0) ∧
    expr.ExpressionAttributeValues = some (vs ++ remValueEntries rrem 0) ∧
    (∀ t ∈ tokensOf expr.FilterExpression,
      (keyShaped '#' t ∧ t ∈ keysOf (remNameEntries rrem 0)) ∨
      (keyShaped ':' t ∧ t ∈ keysOf (remValueEntries rrem 0))) := by
  obtain ⟨ps, hps, hptok, hpcls⟩ := buildSubList_spec rrem 0 base ns vs hbn hbv hsup
    (fun i' j _ => hfn i' j) (fun i' k _ => hfv i' k)
  have hatokens : tokens ((joinSep " AND " (ps.map (fun p => p.1))).data)
      = (ps.map (fun p => p.2)).flatten := by
    have hj := tokens_joinSep " AND " and_sep_nosig and_sep_clean (by decide) ps hptok []
      cleanRest_nil
    rw [List.append_nil] at hj
    rw [tokens_nil, List.append_nil] at hj
    exact hj
  rw [addFilterExpressions] at h
  rw [hps, except_bind_ok] at h
  injection h with h
  subst h
  refine ⟨rfl, rfl, rfl, ?_⟩
  intro t ht
  have ht' : t ∈ (ps.map (fun p => p.2)).flatten := by
    rw [← hatokens]
    exact ht
  rw [List.mem_flatten] at ht'
  obtain ⟨l, hl, htl⟩ := ht'
  simp only [List.mem_map] at hl
  obtain ⟨p, hp, rfl⟩ := hl
  exact hpcls p hp t htl

/-- C7: for a valid filter list — one that passes validation and whose
operators are drawn from the supported ten-operator set — the expression
record returned by buildFilterExpression satisfies the placeholder
invariant. For a nonempty list the two attribute maps are EXACTLY the
concatenation of the #pk/:pkVal entry (when a partition-key predicate was
extracted) with, for each remaining filter at its index i, the entries its
operator family generates under the index-tagged placeholder templates
(remNameEntries / remValueEntries: #key{i}_{j}, :val{i}, :val{i}_{j},
:val{i}_{t}_{c}) — so no predicate's write ever overwrote or shadowed
another's entry — and the key list of that concatenation is duplicate-free:
the placeholders generated for distinct filter indices are pairwise
distinct (an index-free placeholder scheme would falsify this conjunct).
Moreover every name placeholder (#-token) referenced in
KeyConditionExpression or FilterExpression has an entry in
ExpressionAttributeNames and every value placeholder (:-token) one in
ExpressionAttributeValues. -/
theorem c7_placeholder_invariant (pkName : String) (filters : List IFilterQuery)
    (expr : DynamoDBFilterExpression)
    (hsup : ∀ f ∈ filters, f.operator ∈ supportedOperators)
    (h : buildFilterExpression pkName filters = .ok expr) :
    (filters = [] → expr = {}) ∧
    (filters ≠ [] →
      expr.ExpressionAttributeNames
        = some (pkNamePart (extractPartitionKeyFilter pkName filters).1
            ++ remNameEntries (extractPartitionKeyFilter pkName filters).2 0) ∧
      expr.ExpressionAttributeValues
        = some (pkValuePart (extractPartitionKeyFilter pkName filters).1
            ++ remValueEntries (extractPartitionKeyFilter pkName filters).2 0) ∧
      (keysOf (pkNamePart (extractPartitionKeyFilter pkName filters).1
          ++ remNameEntries (extractPartitionKeyFilter pkName filters).2 0)).Nodup ∧
      (keysOf (pkValuePart (extractPartitionKeyFilter pkName filters).1
          ++ remValueEntries (extractPartitionKeyFilter pkName filters).2 0)).Nodup) ∧
    (∀ t ∈ tokensOf expr.KeyConditionExpression ++ tokensOf expr.FilterExpression,
      (keyShaped '#' t ∧ ∃ ns, expr.ExpressionAttributeNames = some ns ∧ t ∈ keysOf ns) ∨
      (keyShaped ':' t ∧ ∃ vs, expr.ExpressionAttributeValues = some vs ∧ t ∈ keysOf vs)) := by
  rw [buildFilterExpression] at h
  by_cases hemp : filters.isEmpty
  · have hfnil : filters = [] := by
      cases hfl : filters with
      | nil => rfl
      | cons a l =>
        rw [hfl] at hemp
        simp at hemp
    rw [if_pos hemp] at h
    injection h with h
    subst h
    refine ⟨fun _ => rfl, fun hne => absurd hfnil hne, ?_⟩
    intro t ht
    exact absurd ht (List.not_mem_nil t)
  · rw [if_neg hemp] at h
    cases hval : validateFilters filters with
    | error er =>
      rw [hval, except_bind_error] at h
      exact Except.noConfusion h
    | ok u =>
      cases u
      rw [hval, except_bind_ok] at h
      dsimp only at h
      cases hpk : (extractPartitionKeyFilter pkName filters).1 with
      | none =>
        rw [hpk] at h
        dsimp only at h
        by_cases hrem : (extractPartitionKeyFilter pkName filters).2.isEmpty
        · have hrnil : (extractPartitionKeyFilter pkName filters).2 = [] := by
            cases hrl : (extractPartitionKeyFilter pkName filters).2 with
            | nil => rfl
            | cons a l =>
              rw [hrl] at hrem
              simp at hrem
          rw [if_pos hrem] at h
          injection h with h
          subst h
          refine ⟨fun heq => absurd (by simp [heq]) hemp, fun _ => ?_, ?_⟩
          · rw [hrnil]
            exact ⟨rfl, rfl, by simp [keysOf, pkNamePart, remNameEntries],
              by simp [keysOf, pkValuePart, remValueEntries]⟩
          · intro t ht
            exact absurd ht (List.not_mem_nil t)
        · rw [if_neg hrem] at h
          obtain ⟨hkey, hnames, hvals, hftoks⟩ := addFilterExpressions_spec
            { ExpressionAttributeNames := some [], ExpressionAttributeValues := some [] }
            (extractPartitionKeyFilter pkName filters).2 [] [] rfl rfl
            (fun f hf => hsup f (extract_mem pkName filters f hf))
            (by intro i' j hm; simp [keysOf] at hm)
            (by intro i' k _ hm; simp [keysOf] at hm) expr h
          refine ⟨fun heq => absurd (by simp [heq]) hemp, fun _ => ?_, ?_⟩
          · exact ⟨hnames, hvals, remNameEntries_nodup _ 0, remValueEntries_nodup _ 0⟩
          · intro t ht
            rcases List.mem_append.mp ht with htl | htr
            · rw [hkey] at htl
              exact absurd htl (List.not_mem_nil t)
            · rcases hftoks t htr with ⟨hsh, hm⟩ | ⟨hsh, hm⟩
              · exact Or.inl ⟨hsh, _, hnames, hm⟩
              · exact Or.inr ⟨hsh, _, hvals, hm⟩
      | some pkF =>
        rw [hpk] at h
        dsimp only at h
        by_cases hrem : (extractPartitionKeyFilter pkName filters).2.isEmpty
        · have hrnil : (extractPartitionKeyFilter pkName filters).2 = [] := by
            cases hrl : (extractPartitionKeyFilter pkName filters).2 with
            | nil => rfl
            | cons a l =>
              rw [hrl] at hrem
              simp at hrem
          rw [if_pos hrem] at h
          injection h with h
          subst h
          refine ⟨fun heq => absurd (by simp [heq]) hemp, fun _ => ?_, ?_⟩
          · rw [hrnil]
            exact ⟨rfl, rfl,
              by simp [keysOf, pkNamePart, remNameEntries, assocSet, setName, setValue],
              by simp [keysOf, pkValuePart, remValueEntries, assocSet, setName, setValue]⟩
          · intro t ht
            have ht' : t ∈ tokens (("#pk = :pkVal" : String)).data ++ ([] : List String) :=
              ht
            rw [tokens_pkCond, List.append_nil] at ht'
            rcases List.mem_cons.mp ht' with rfl | ht''
            · exact Or.inl ⟨keyShaped_pk, [("#pk", pkF.field)], rfl, by simp [keysOf]⟩
            · rw [List.mem_singleton] at ht''
              subst ht''
              exact Or.inr ⟨keyShaped_pkVal,
                [(":pkVal", toDynamoDBValue pkF.value)], rfl, by simp [keysOf]⟩
        · rw [if_neg hrem] at h
          obtain ⟨hkey, hnames, hvals, hftoks⟩ := addFilterExpressions_spec
            (addPartitionKeyExpression
              { ExpressionAttributeNames := some [], ExpressionAttributeValues := some [] }
              pkF)
            (extractPartitionKeyFilter pkName filters).2
            [("#pk", pkF.field)] [(":pkVal", toDynamoDBValue pkF.value)] rfl rfl
            (fun f hf => hsup f (extract_mem pkName filters f hf))
            (by
              intro i' j hm
              simp only [keysOf, List.map_cons, List.map_nil, List.mem_singleton] at hm
              exact pk_ne_nameKey i' j hm.symm)
            (by
              intro i' k hk hm
              simp only [keysOf, List.map_cons, List.map_nil, List.mem_singleton] at hm
              subst hm
              rcases hk with he | ⟨j, he⟩ | ⟨t, c, hc, he⟩
              · exact pkVal_ne_valKey i' he
              · exact pkVal_ne_valKeyIdx i' j he
              · exact pkVal_ne_valKeyCase i' t c he) expr h
          have hnodupN : (keysOf (pkNamePart (some pkF)
              ++ remNameEntries (extractPartitionKeyFilter pkName filters).2 0)).Nodup := by
            rw [keysOf_append]
            refine List.Nodup.append (by simp [keysOf, pkNamePart])
              (remNameEntries_nodup _ 0) ?_
            intro x hx hx'
            simp only [pkNamePart, keysOf, List.map_cons, List.map_nil,
              List.mem_singleton] at hx
            subst hx
            obtain ⟨i', j, _, hj⟩ := remNameEntries_keys _ 0 _ hx'
            exact pk_ne_nameKey i' j hj
          have hnodupV : (keysOf (pkValuePart (some pkF)
              ++ remValueEntries (extractPartitionKeyFilter pkName filters).2 0)).Nodup := by
            rw [keysOf_append]
            refine List.Nodup.append (by simp [keysOf, pkValuePart])
              (remValueEntries_nodup _ 0) ?_
            intro x hx hx'
            simp only [pkValuePart, keysOf, List.map_cons, List.map_nil,
              List.mem_singleton] at hx
            subst hx
            obtain ⟨i', _, hk⟩ := remValueEntries_keys _ 0 _ hx'
            rcases hk with he | ⟨j, he⟩ | ⟨t, c, hc, he⟩
            · exact pkVal_ne_valKey i' he
            · exact pkVal_ne_valKeyIdx i' j he
            · exact pkVal_ne_valKeyCase i' t c he
          refine ⟨fun heq => absurd (by simp [heq]) hemp, fun _ => ?_, ?_⟩
          · exact ⟨hnames, hvals, hnodupN, hnodupV⟩
          · intro t ht
            rcases List.mem_append.mp ht with htl | htr
            · rw [hkey] at htl
              have ht' : t ∈ tokens (("#pk = :pkVal" : String)).data := htl
              rw [tokens_pkCond] at ht'
              rcases List.mem_cons.mp ht' with rfl | ht''
              · refine Or.inl ⟨keyShaped_pk, _, hnames, ?_⟩
                rw [keysOf_append]
                exact List.mem_append.mpr (Or.inl (by simp [keysOf]))
              · rw [List.mem_singleton] at ht''
                subst ht''
                refine Or.inr ⟨keyShaped_pkVal, _, hvals, ?_⟩
                rw [keysOf_append]
                exact List.mem_append.mpr (Or.inl (by simp [keysOf]))
            · rcases hftoks t htr with ⟨hsh, hm⟩ | ⟨hsh, hm⟩
              · refine Or.inl ⟨hsh, _, hnames, ?_⟩
                rw [keysOf_append]
                exact List.mem_append.mpr (Or.inr hm)
              · refine Or.inr ⟨hsh, _, hvals, ?_⟩
                rw [keysOf_append]
                exact List.mem_append.mpr (Or.inr hm)

/-- C7 witness. -/
theorem c7_placeholder_invariant_witness :
    (∀ f ∈ c7Filters, f.operator ∈ supportedOperators) ∧
    buildFilterExpression "id" c7Filters = .ok c7Expr ∧
    ((c7Filters = [] → c7Expr = {}) ∧
    (c7Filters ≠ [] →
      c7Expr.ExpressionAttributeNames
        = some (pkNamePart (extractPartitionKeyFilter "id" c7Filters).1
            ++ remNameEntries (extractPartitionKeyFilter "id" c7Filters).2 0) ∧
      c7Expr.ExpressionAttributeValues
        = some (pkValuePart (extractPartitionKeyFilter "id" c7Filters).1
            ++ remValueEntries (extractPartitionKeyFilter "id" c7Filters).2 0) ∧
      (keysOf (pkNamePart (extractPartitionKeyFilter "id" c7Filters).1
          ++ remNameEntries (extractPartitionKeyFilter "id" c7Filters).2 0)).Nodup ∧
      (keysOf (pkValuePart (extractPartitionKeyFilter "id" c7Filters).1
          ++ remValueEntries (extractPartitionKeyFilter "id" c7Filters).2 0)).Nodup) ∧
    (∀ t ∈ tokensOf c7Expr.KeyConditionExpression ++ tokensOf c7Expr.FilterExpression,
      (keyShaped '#' t ∧ ∃ ns, c7Expr.ExpressionAttributeNames = some ns ∧ t ∈ keysOf ns) ∨
      (keyShaped ':' t ∧ ∃ vs, c7Expr.ExpressionAttributeValues = some vs ∧ t ∈ keysOf vs))) :=
  ⟨by decide, rfl, c7_placeholder_invariant "id" c7Filters c7Expr (by decide) rfl⟩

end Dynamo
